import Mathlib

/-
Fiber: a shallow embedding of `fiber.h` (ucontext backend) and of `test.c`

The embedding follows the third backend of `fiber.h` (the `#else` branch, lines 354-443),
which is the one built on `getcontext` / `makecontext` / `swapcontext`.  The build flag
`FBSEPCMP` (64-bit pointers passed to `makecontext` as two unsigned 32-bit words) is a
parameter of the model.

* Memory is a list of live blocks keyed by their address; `0` is the null pointer.
* Every memory access of the C code is a function on `Heap` that may fail (`none`):
  dereferencing an address that holds no live block of the expected type is a fault.
* Every access, allocation, release and control transfer is also appended to `Heap.log`.
* `fballoc` (`malloc`) is a parameter: any function that returns a non-null address
  which is not the address of a live block.
* Control transfer: a `ucontext_t` stores the suspended call stack (`Regs`), and
  `swapcontext` exchanges the running call stack with the stored one.
-/

namespace Fiber

/-- Addresses and function pointers; `0` is `NULL`. -/
abbrev Ptr := Nat

/-- Line 130 of fiber.h: `#define FIBER_STACK_SIZE (1024 * 1024)`. -/
def FIBER_STACK_SIZE : Nat := 1024 * 1024

/-- Lines 145-156 of fiber.h: `struct fiber_t`. -/
structure fiber_t where
  current : Ptr
  stack_size : Nat
  context : Ptr
  proc : Ptr
  userdata : Ptr
deriving DecidableEq, Repr

/-- One activation record of the running call stack.
`user fn pc fb t` is an activation of the client function `fn` stopped before its
statement number `pc`, with locals `fb` and `t`; `fiber_switch_440` is an activation of
`fiber_switch` inside `swapcontext` (line 438) whose remaining code is line 440,
`return true;`; `fiber_proc_impl_ret` is the trampoline waiting for `fb->proc(fb)`
(line 362 / 368) to return. -/
inductive Frame where
  | user (fn : Ptr) (pc : Nat) (fb : Ptr) (t : Ptr)
  | fiber_switch_440
  | fiber_proc_impl_ret
deriving DecidableEq, Repr

/-- The machine state held by a `ucontext_t`. -/
inductive Regs where
  /-- After `memset(ctx, 0, sizeof(ucontext_t))`: nothing to resume. -/
  | zeroed
  /-- After `getcontext(ctx)` inside `fiber_create`. -/
  | captured
  /-- After `makecontext(ctx, fiber_proc_impl, argc, args...)`: first activation enters
  the trampoline with these arguments on the context's own stack. -/
  | entry (args : List Nat)
  /-- After `swapcontext(ctx, _)`: the suspended call stack. -/
  | saved (k : List Frame)
deriving DecidableEq, Repr

/-- The part of `ucontext_t` the code touches: `uc_stack` and the saved machine state. -/
structure ucontext_t where
  ss_sp : Ptr
  ss_size : Nat
  ss_flags : Nat
  regs : Regs
deriving DecidableEq, Repr

/-- A live memory block. -/
inductive Block where
  /-- A `fiber_t`. -/
  | fiber (f : fiber_t)
  /-- A `fiber_t*` cell (the shared `current` cell). -/
  | cell (v : Ptr)
  /-- A `ucontext_t`. -/
  | ucontext (c : ucontext_t)
  /-- Raw bytes of the given size (a fiber stack). -/
  | raw (size : Nat)
deriving DecidableEq, Repr

/-- Observable effects, in program order. -/
inductive Event where
  | alloc (p : Ptr)
  | free (p : Ptr)
  | read (p : Ptr)
  | write (p : Ptr)
  | makecontext (ctx : Ptr) (args : List Nat)
  | swapcontext (oucp ucp : Ptr)
deriving DecidableEq, Repr

/-- Live blocks by address. -/
abbrev Mem := List (Ptr × Block)

/-- The block at address `p`, if one is live. -/
def Mem.get : Mem → Ptr → Option Block
  | [], _ => none
  | (q, b) :: m, p => if q = p then some b else Mem.get m p

/-- Overwrite the block at address `p` (no effect when none is live). -/
def Mem.set : Mem → Ptr → Block → Mem
  | [], _, _ => []
  | (q, b) :: m, p, v => if q = p then (q, v) :: m else (q, b) :: Mem.set m p v

/-- Remove the block at address `p`. -/
def Mem.erase : Mem → Ptr → Mem
  | [], _ => []
  | (q, b) :: m, p => if q = p then Mem.erase m p else (q, b) :: Mem.erase m p

/-- Addresses of the live blocks. -/
def Mem.keys (m : Mem) : List Ptr := m.map Prod.fst

/-- Memory and effect log. -/
structure Heap where
  mem : Mem
  log : List Event
deriving DecidableEq, Repr

/-- The contract of `malloc` when it succeeds: a non-null address that is not the
address of any live block. -/
structure Allocator where
  pick : List Ptr → Ptr
  pick_ne_null : ∀ l, pick l ≠ 0
  pick_fresh : ∀ l, pick l ∉ l

/-- An allocator that hands out the address above every live one. -/
def bump : Allocator where
  pick l := l.foldr max 0 + 1
  pick_ne_null l := Nat.succ_ne_zero _
  pick_fresh l := by
    have key : ∀ (l : List Nat) (x : Nat), x ∈ l → x ≤ l.foldr max 0 := by
      intro l
      induction l with
      | nil => intro x hx; cases hx
      | cons a t ih =>
        intro x hx
        rcases List.mem_cons.mp hx with h | h
        · subst h; exact le_max_left _ _
        · exact le_trans (ih x h) (le_max_right _ _)
    intro hmem
    have := key l (l.foldr max 0 + 1) hmem
    omega

/-- Models `fballoc(...)` (line 122: `malloc`): a new live block with initial content `b`. -/
def fballoc (A : Allocator) (b : Block) (h : Heap) : Ptr × Heap :=
  let p := A.pick h.mem.keys
  (p, { mem := (p, b) :: h.mem, log := h.log ++ [Event.alloc p] })

/-- Models `fbfree(p)` (line 125: `free`): releases the live block at `p`; `free(NULL)` does
nothing; releasing an address with no live block is a fault. -/
def fbfree (p : Ptr) (h : Heap) : Option Heap :=
  if p = 0 then some h
  else match h.mem.get p with
    | none => none
    | some _ => some { mem := h.mem.erase p, log := h.log ++ [Event.free p] }

/-- Read of a field of the `fiber_t` at `p`. -/
def loadFiber (p : Ptr) (h : Heap) : Option (fiber_t × Heap) :=
  match h.mem.get p with
  | some (Block.fiber f) => some (f, { h with log := h.log ++ [Event.read p] })
  | _ => none

/-- Write of a field of the `fiber_t` at `p`. -/
def storeFiber (p : Ptr) (upd : fiber_t → fiber_t) (h : Heap) : Option Heap :=
  match h.mem.get p with
  | some (Block.fiber f) =>
    some { mem := h.mem.set p (Block.fiber (upd f)), log := h.log ++ [Event.write p] }
  | _ => none

/-- Read of the `fiber_t*` cell at `p`. -/
def loadCell (p : Ptr) (h : Heap) : Option (Ptr × Heap) :=
  match h.mem.get p with
  | some (Block.cell v) => some (v, { h with log := h.log ++ [Event.read p] })
  | _ => none

/-- Write of the `fiber_t*` cell at `p`. -/
def storeCell (p : Ptr) (v : Ptr) (h : Heap) : Option Heap :=
  match h.mem.get p with
  | some (Block.cell _) =>
    some { mem := h.mem.set p (Block.cell v), log := h.log ++ [Event.write p] }
  | _ => none

/-- Read of a field of the `ucontext_t` at `p`. -/
def loadCtx (p : Ptr) (h : Heap) : Option (ucontext_t × Heap) :=
  match h.mem.get p with
  | some (Block.ucontext c) => some (c, { h with log := h.log ++ [Event.read p] })
  | _ => none

/-- Write of a field of the `ucontext_t` at `p`. -/
def storeCtx (p : Ptr) (upd : ucontext_t → ucontext_t) (h : Heap) : Option Heap :=
  match h.mem.get p with
  | some (Block.ucontext c) =>
    some { mem := h.mem.set p (Block.ucontext (upd c)), log := h.log ++ [Event.write p] }
  | _ => none

/-- Models `makecontext(ctx, fiber_proc_impl, argc, args...)` of libc: the context at `ctx`
will start in the trampoline with the arguments `args`. -/
def makecontext (ctx : Ptr) (args : List Nat) (h : Heap) : Option Heap :=
  match h.mem.get ctx with
  | some (Block.ucontext c) =>
    some { mem := h.mem.set ctx (Block.ucontext { c with regs := Regs.entry args }),
           log := h.log ++ [Event.makecontext ctx args] }
  | _ => none

/-- Models `swapcontext(oucp, ucp)` of libc, called with the running call stack `k`:
the running state is saved into the context at `oucp`, then the state held by the context
at `ucp` is handed back to be restored. -/
def swapcontext (oucp ucp : Ptr) (k : List Frame) (h : Heap) : Option (Regs × Heap) :=
  match h.mem.get oucp with
  | some (Block.ucontext o) =>
    let m := h.mem.set oucp (Block.ucontext { o with regs := Regs.saved k })
    match m.get ucp with
    | some (Block.ucontext c) =>
      some (c.regs, { mem := m, log := h.log ++ [Event.swapcontext oucp ucp] })
    | _ => none
  | _ => none

/-- Line 358 of fiber.h: `((uintptr_t)fst) | ((uintptr_t)scd << 32)`, on 64-bit words,
from two `unsigned` (32-bit) arguments. -/
def join_handle (fst scd : Nat) : Nat :=
  ((fst % 2 ^ 32) % 2 ^ 64) ||| (((scd % 2 ^ 32) % 2 ^ 64) <<< 32) % 2 ^ 64

/-- Lines 357-363 of fiber.h, the trampoline of the FBSEPCMP build:
`ptr = ((uintptr_t)fst) | ((uintptr_t)scd << 32)` on 64-bit words.
The result is the call the trampoline makes, `some (proc, fb)` for `fb->proc(fb)`,
or `none` when it returns without calling. -/
def fiber_proc_impl_sep (fst scd : Nat) (h : Heap) : Option (Option (Ptr × Ptr) × Heap) :=
  let ptr : Nat := join_handle fst scd
  let fb : Ptr := ptr
  if fb = 0 then some (none, h)
  else do
    let (f, h) ← loadFiber fb h
    some (some (f.proc, fb), h)

/-- Lines 365-369 of fiber.h, the trampoline of the other builds. -/
def fiber_proc_impl (fb : Ptr) (h : Heap) : Option (Option (Ptr × Ptr) × Heap) :=
  if fb = 0 then some (none, h)
  else do
    let (f, h) ← loadFiber fb h
    some (some (f.proc, fb), h)

/-- Lines 395-399 of fiber.h: the two `unsigned` words passed to `makecontext` in the
FBSEPCMP build, from the 64-bit handle `ret`. -/
def split_handle (ret : Ptr) : List Nat :=
  let fst : Nat := ret % 2 ^ 64
  let scd : Nat := ret % 2 ^ 64
  let fst := fst &&& 0x00000000ffffffff
  let scd := scd >>> 32
  [fst % 2 ^ 32, scd % 2 ^ 32]

/-- Lines 372-376 of fiber.h. -/
def fiber_is_current (fb : Ptr) (h : Heap) : Option (Bool × Heap) :=
  if fb = 0 then some (false, h)
  else do
    let (f, h) ← loadFiber fb h
    let (v, h) ← loadCell f.current h
    some (decide (v = fb), h)

/-- Lines 378-417 of fiber.h.  `sep` is the build flag FBSEPCMP.  A block returned by
`fballoc` is modelled with zeroed content; every field of the new `fiber_t` is
assigned before the function returns. -/
def fiber_create (sep : Bool) (A : Allocator) (primary : Ptr) (stack : Nat) (run : Ptr)
    (userdata : Ptr) (h : Heap) : Option (Ptr × Heap) :=
  if (primary = 0 ∧ run ≠ 0) ∨ (primary ≠ 0 ∧ run = 0) then some (0, h)
  else do
    let (ret, h) := fballoc A (Block.fiber ⟨0, 0, 0, 0, 0⟩) h
    let h ← storeFiber ret (fun f => { f with proc := run }) h
    let h ← storeFiber ret (fun f => { f with userdata := userdata }) h
    if primary ≠ 0 ∧ run ≠ 0 then
      let stack := if stack = 0 then FIBER_STACK_SIZE else stack
      let (ctx, h) := fballoc A (Block.ucontext ⟨0, 0, 0, Regs.zeroed⟩) h
      let h ← storeCtx ctx (fun _ => ⟨0, 0, 0, Regs.zeroed⟩) h
      let h ← storeCtx ctx (fun c => { c with regs := Regs.captured }) h
      let (sp, h) := fballoc A (Block.raw stack) h
      let h ← storeCtx ctx (fun c => { c with ss_sp := sp }) h
      let h ← storeCtx ctx (fun c => { c with ss_size := stack }) h
      let h ← storeCtx ctx (fun c => { c with ss_flags := 0 }) h
      let h ← makecontext ctx (if sep then split_handle ret else [ret]) h
      let (p, h) ← loadFiber primary h
      let h ← storeFiber ret (fun f => { f with current := p.current }) h
      let h ← storeFiber ret (fun f => { f with stack_size := stack }) h
      let h ← storeFiber ret (fun f => { f with context := ctx }) h
      some (ret, h)
    else
      let (cell, h) := fballoc A (Block.cell 0) h
      let h ← storeFiber ret (fun f => { f with current := cell }) h
      let (ctx, h) := fballoc A (Block.ucontext ⟨0, 0, 0, Regs.zeroed⟩) h
      let h ← storeCtx ctx (fun _ => ⟨0, 0, 0, Regs.zeroed⟩) h
      let (f, h) ← loadFiber ret h
      let h ← storeCell f.current ret h
      let h ← storeFiber ret (fun f => { f with stack_size := 0 }) h
      let h ← storeFiber ret (fun f => { f with context := ctx }) h
      some (ret, h)

/-- Lines 419-431 of fiber.h. -/
def fiber_delete (fb : Ptr) (h : Heap) : Option (Bool × Heap) :=
  if fb = 0 then some (false, h)
  else do
    let (f, h) ← loadFiber fb h
    let h ←
      if f.proc ≠ 0 then do
        let (f, h) ← loadFiber fb h
        let (ctx, h) ← loadCtx f.context h
        fbfree ctx.ss_sp h
      else do
        let (f, h) ← loadFiber fb h
        fbfree f.current h
    let (f, h) ← loadFiber fb h
    let h ← fbfree f.context h
    let h ← fbfree fb h
    some (true, h)

/-- What `fiber_switch` has done when it stops running: it returned `r` at line 435, or it
called `swapcontext(oucp, ucp)` at line 438. -/
inductive SwitchStep where
  | ret (r : Bool)
  | swap (oucp ucp : Ptr)
deriving DecidableEq, Repr

/-- Lines 433-438 of fiber.h: `fiber_switch` up to its call of `swapcontext`. -/
def fiber_switch_enter (fb : Ptr) (h : Heap) : Option (SwitchStep × Heap) :=
  if fb = 0 then some (SwitchStep.ret false, h)
  else do
    let (f, h) ← loadFiber fb h
    let (curr, h) ← loadCell f.current h
    let (f, h) ← loadFiber fb h
    let h ← storeCell f.current fb h
    let (c, h) ← loadFiber curr h
    let (f, h) ← loadFiber fb h
    some (SwitchStep.swap c.context f.context, h)

/-- Line 440 of fiber.h: what `fiber_switch` does once `swapcontext` has returned,
`return true;`. -/
def fiber_switch_resume (h : Heap) : Bool × Heap := (true, h)

/-! ### test.c -/

/-- Lines 8-13 of test.c: `struct test_t`. -/
structure test_t where
  sum : Int
  fb0 : Ptr
  fb1 : Ptr
  fb2 : Ptr
deriving DecidableEq, Repr

/-- The three handle fields of `test_t`. -/
inductive Slot where
  | fb0
  | fb1
  | fb2
deriving DecidableEq, Repr

/-- Reads `t->fbN`. -/
def test_t.slot (t : test_t) : Slot → Ptr
  | Slot.fb0 => t.fb0
  | Slot.fb1 => t.fb1
  | Slot.fb2 => t.fb2

/-- Assigns `test.fbN = v`. -/
def test_t.setSlot (t : test_t) (s : Slot) (v : Ptr) : test_t :=
  match s with
  | Slot.fb0 => { t with fb0 := v }
  | Slot.fb1 => { t with fb1 := v }
  | Slot.fb2 => { t with fb2 := v }

/-- The two format strings of test.c, `"fiber1: %d\n"` and `"fiber2: %d\n"`. -/
inductive Label where
  | fiber1
  | fiber2
deriving DecidableEq, Repr

/-- The statements test.c is made of. -/
inductive Stmt where
  /-- `struct test_t* t = (struct test_t*)fb->userdata;` -/
  | load_t
  /-- `assert(fiber_is_current(t->fbN));` -/
  | assert_is_current (s : Slot)
  /-- `printf("fiberN: %d\n", ++t->sum);` -/
  | printf_inc (l : Label)
  /-- `fiber_switch(t->fbN);` -/
  | switch (s : Slot)
  /-- `test.fbN = fiber_create(primary, stack, run, &test);` where `primary` is `0`
  or `test.fbM`. -/
  | create (dst : Slot) (primary : Option Slot) (stack : Nat) (run : Ptr)
  /-- `fiber_delete(test.fbN);` -/
  | delete (s : Slot)
deriving DecidableEq, Repr

/-- Address of the function `main`. -/
def MAIN : Ptr := 1
/-- Address of the function `fiber1`. -/
def FIBER1 : Ptr := 2
/-- Address of the function `fiber2`. -/
def FIBER2 : Ptr := 3

/-- Lines 15-29 of test.c. -/
def fiber1 : List Stmt :=
  [ Stmt.load_t,
    Stmt.assert_is_current Slot.fb1, Stmt.printf_inc Label.fiber1, Stmt.switch Slot.fb2,
    Stmt.assert_is_current Slot.fb1, Stmt.printf_inc Label.fiber1, Stmt.switch Slot.fb2,
    Stmt.assert_is_current Slot.fb1, Stmt.printf_inc Label.fiber1, Stmt.switch Slot.fb2 ]

/-- Lines 31-45 of test.c. -/
def fiber2 : List Stmt :=
  [ Stmt.load_t,
    Stmt.assert_is_current Slot.fb2, Stmt.printf_inc Label.fiber2, Stmt.switch Slot.fb0,
    Stmt.assert_is_current Slot.fb2, Stmt.printf_inc Label.fiber2, Stmt.switch Slot.fb0,
    Stmt.assert_is_current Slot.fb2, Stmt.printf_inc Label.fiber2, Stmt.switch Slot.fb0 ]

/-- Lines 61-89 of test.c (the non-Windows build: no `atexit`). -/
def main : List Stmt :=
  [ Stmt.create Slot.fb0 none 0 0,
    Stmt.create Slot.fb1 (some Slot.fb0) 0 FIBER1,
    Stmt.create Slot.fb2 (some Slot.fb0) 0 FIBER2,
    Stmt.assert_is_current Slot.fb0, Stmt.switch Slot.fb1,
    Stmt.assert_is_current Slot.fb0, Stmt.switch Slot.fb1,
    Stmt.assert_is_current Slot.fb0, Stmt.switch Slot.fb1,
    Stmt.delete Slot.fb2, Stmt.delete Slot.fb1, Stmt.delete Slot.fb0 ]

/-- The body behind a function pointer. -/
def code (fn : Ptr) : List Stmt :=
  if fn = MAIN then main
  else if fn = FIBER1 then fiber1
  else if fn = FIBER2 then fiber2
  else []

/-- Whether the thread is executing, has ended (a call stack ran empty: `main` returned, or
an entry function returned into a context whose `uc_link` is null), or was stopped by a
failed `assert`. -/
inductive Status where
  | running
  | exited
  | aborted
deriving DecidableEq, Repr

/-- The state of the test process: heap, the local `test` of `main` and its address,
what was printed, the value of each evaluated assertion, and the running call stack. -/
structure Machine where
  heap : Heap
  test : test_t
  test_addr : Ptr
  out : List (Label × Int)
  asserts : List Bool
  stack : List Frame
  status : Status
deriving DecidableEq, Repr

/-- Restores what `swapcontext` found in the target context: a suspended call stack is
resumed; a context built by `makecontext` enters the trampoline `fiber_proc_impl`, which
either returns at once or calls `fb->proc(fb)`; a context that holds no resumable state
cannot be restored. -/
def restore (sep : Bool) (r : Regs) (h : Heap) : Option (List Frame × Heap) :=
  match r with
  | Regs.saved k => some (k, h)
  | Regs.entry args => do
    let (call, h) ←
      (if sep then
        match args with
        | [fst, scd] => fiber_proc_impl_sep fst scd h
        | _ => none
      else
        match args with
        | [fb] => fiber_proc_impl fb h
        | _ => none)
    match call with
    | none => some ([], h)
    | some (proc, fb) => some ([Frame.user proc 0 fb 0, Frame.fiber_proc_impl_ret], h)
  | _ => none

/-- One statement of test.c, executed in the activation `Frame.user fn pc fb t` whose
callers are `k`. -/
def exec (sep : Bool) (A : Allocator) (s : Stmt) (fn : Ptr) (pc : Nat) (fb t : Ptr)
    (k : List Frame) (m : Machine) : Option Machine :=
  let next := Frame.user fn (pc + 1) fb t :: k
  match s with
  | Stmt.load_t => do
    let (f, h) ← loadFiber fb m.heap
    some { m with heap := h, stack := Frame.user fn (pc + 1) fb f.userdata :: k }
  | Stmt.assert_is_current sl =>
    if t ≠ m.test_addr then none
    else do
      let (b, h) ← fiber_is_current (m.test.slot sl) m.heap
      if b then some { m with heap := h, asserts := m.asserts ++ [b], stack := next }
      else some { m with heap := h, asserts := m.asserts ++ [b], stack := next,
                         status := Status.aborted }
  | Stmt.printf_inc l =>
    if t ≠ m.test_addr then none
    else
      let v := m.test.sum + 1
      some { m with test := { m.test with sum := v }, out := m.out ++ [(l, v)],
                    stack := next }
  | Stmt.switch sl =>
    if t ≠ m.test_addr then none
    else do
      let (r, h) ← fiber_switch_enter (m.test.slot sl) m.heap
      match r with
      | SwitchStep.ret _ => some { m with heap := h, stack := next }
      | SwitchStep.swap oucp ucp => do
        let (regs, h) ← swapcontext oucp ucp (Frame.fiber_switch_440 :: next) h
        let (k2, h) ← restore sep regs h
        some { m with heap := h, stack := k2 }
  | Stmt.create dst primary stack run =>
    if t ≠ m.test_addr then none
    else do
      let p := match primary with
        | none => 0
        | some sl => m.test.slot sl
      let (ret, h) ← fiber_create sep A p stack run m.test_addr m.heap
      some { m with heap := h, test := m.test.setSlot dst ret, stack := next }
  | Stmt.delete sl =>
    if t ≠ m.test_addr then none
    else do
      let (_, h) ← fiber_delete (m.test.slot sl) m.heap
      some { m with heap := h, stack := next }

/-- One step of the thread. -/
def step (sep : Bool) (A : Allocator) (m : Machine) : Option Machine :=
  match m.status with
  | Status.exited => some m
  | Status.aborted => some m
  | Status.running =>
    match m.stack with
    | [] => some { m with status := Status.exited }
    | Frame.fiber_switch_440 :: k =>
      some { m with heap := (fiber_switch_resume m.heap).2, stack := k }
    | Frame.fiber_proc_impl_ret :: k => some { m with stack := k }
    | Frame.user fn pc fb t :: k =>
      match (code fn)[pc]? with
      | none => some { m with stack := k }
      | some s => exec sep A s fn pc fb t k m

/-- Runs `n` steps. -/
def run (sep : Bool) (A : Allocator) : Nat → Machine → Option Machine
  | 0, m => some m
  | n + 1, m => (step sep A m).bind (run sep A n)

/-- The process at the opening brace of `main`, after `memset(&test, 0, sizeof(test))`,
with an empty heap. -/
def start (test_addr : Ptr) : Machine :=
  { heap := { mem := [], log := [] },
    test := ⟨0, 0, 0, 0⟩,
    test_addr := test_addr,
    out := [],
    asserts := [],
    stack := [Frame.user MAIN 0 0 test_addr],
    status := Status.running }

/-! ### Creation and teardown of a family -/

/-- Creates one minor fiber from `primary` per entry `(stack, run, userdata)` of the list,
in order (test.c lines 72-73, for any number of minors); the handles in creation order. -/
def create_minors (sep : Bool) (A : Allocator) (primary : Ptr) :
    List (Nat × Ptr × Ptr) → Heap → Option (List Ptr × Heap)
  | [], h => some ([], h)
  | (stack, run, userdata) :: rest, h => do
    let (fb, h) ← fiber_create sep A primary stack run userdata h
    let (fbs, h) ← create_minors sep A primary rest h
    some (fb :: fbs, h)

/-- Calls `fiber_delete` on each handle of the list, in order; the results in order. -/
def delete_all : List Ptr → Heap → Option (List Bool × Heap)
  | [], h => some ([], h)
  | fb :: rest, h => do
    let (r, h) ← fiber_delete fb h
    let (rs, h) ← delete_all rest h
    some (r :: rs, h)

/-- The whole life of a family (test.c lines 71-73 and 84-86, for any number of minors):
the primary is created, then the minors, then the minors are deleted last-created first,
then the primary.  The results of the deletions of the minors, the result of the deletion
of the primary, and the final heap. -/
def family_life (sep : Bool) (A : Allocator) (stack : Nat) (userdata : Ptr)
    (minors : List (Nat × Ptr × Ptr)) (h : Heap) : Option (List Bool × Bool × Heap) := do
  let (p, h) ← fiber_create sep A 0 stack 0 userdata h
  let (fbs, h) ← create_minors sep A p minors h
  let (rs, h) ← delete_all fbs.reverse h
  let (r, h) ← fiber_delete p h
  some (rs, r, h)

/-- The addresses allocated by a run of events, in order. -/
def allocated : List Event → List Ptr
  | [] => []
  | Event.alloc p :: evs => p :: allocated evs
  | _ :: evs => allocated evs

/-- The addresses released by a run of events, in order. -/
def released : List Event → List Ptr
  | [] => []
  | Event.free p :: evs => p :: released evs
  | _ :: evs => released evs

/-- The addresses written by a run of events, in order. -/
def written : List Event → List Ptr
  | [] => []
  | Event.write p :: evs => p :: written evs
  | _ :: evs => written evs

/-- The addresses read by a run of events, in order. -/
def readFrom : List Event → List Ptr
  | [] => []
  | Event.read p :: evs => p :: readFrom evs
  | _ :: evs => readFrom evs

/-- The heap of test.c after line 73 when `fballoc` is `bump` and `&test` is `1000`, in
the build without FBSEPCMP: the primary fiber at `1` (cell `2`, context `3`), the minor
fiber running `fiber1` at `4` (context `5`, stack `6`), and the minor fiber running `fiber2`
at `7` (context `8`, stack `9`); the effect log is left empty. -/
def family3 : Heap :=
  { mem :=
      [ (9, Block.raw 1048576),
        (8, Block.ucontext ⟨9, 1048576, 0, Regs.entry [7]⟩),
        (7, Block.fiber ⟨2, 1048576, 8, 3, 1000⟩),
        (6, Block.raw 1048576),
        (5, Block.ucontext ⟨6, 1048576, 0, Regs.entry [4]⟩),
        (4, Block.fiber ⟨2, 1048576, 5, 2, 1000⟩),
        (3, Block.ucontext ⟨0, 0, 0, Regs.zeroed⟩),
        (2, Block.cell 1),
        (1, Block.fiber ⟨2, 0, 3, 0, 1000⟩) ],
    log := [] }

/-- The heap of test.c after line 71 when `fballoc` is `bump` and `&test` is `1000`: the
primary fiber at `1`, its cell at `2` and its context at `3`; the effect log is left
empty. -/
def family1 : Heap :=
  { mem :=
      [ (3, Block.ucontext ⟨0, 0, 0, Regs.zeroed⟩),
        (2, Block.cell 1),
        (1, Block.fiber ⟨2, 0, 3, 0, 1000⟩) ],
    log := [] }

/-- The heap `family1` with one more live block, at the address `2 ^ 33 + 4`: the next
block `bump` allocates is at `2 ^ 33 + 5`, an address that does not fit in 32 bits. -/
def familyHigh : Heap :=
  { mem := (8589934596, Block.raw 16) :: family1.mem, log := [] }

/-- The heap with no live block. -/
def emptyHeap : Heap := { mem := [], log := [] }

/-! ### Memory lemmas -/

@[simp] theorem Mem.get_nil (p : Ptr) : Mem.get [] p = none := rfl

@[simp] theorem Mem.get_cons_same (p : Ptr) (b : Block) (m : Mem) :
    Mem.get ((p, b) :: m) p = some b := by
  simp [Mem.get]

theorem Mem.get_cons_ne {p q : Ptr} (b : Block) (m : Mem) (hne : q ≠ p) :
    Mem.get ((q, b) :: m) p = Mem.get m p := by
  simp [Mem.get, hne]

@[simp] theorem Mem.set_cons_same (p : Ptr) (b v : Block) (m : Mem) :
    Mem.set ((p, b) :: m) p v = (p, v) :: m := by
  simp [Mem.set]

theorem Mem.set_cons_ne {p q : Ptr} (b v : Block) (m : Mem) (hne : q ≠ p) :
    Mem.set ((q, b) :: m) p v = (q, b) :: Mem.set m p v := by
  simp [Mem.set, hne]

@[simp] theorem Mem.erase_cons_same (p : Ptr) (b : Block) (m : Mem) :
    Mem.erase ((p, b) :: m) p = Mem.erase m p := by
  simp [Mem.erase]

theorem Mem.erase_cons_ne {p q : Ptr} (b : Block) (m : Mem) (hne : q ≠ p) :
    Mem.erase ((q, b) :: m) p = (q, b) :: Mem.erase m p := by
  simp [Mem.erase, hne]

@[simp] theorem Mem.keys_cons (p : Ptr) (b : Block) (m : Mem) :
    Mem.keys ((p, b) :: m) = p :: Mem.keys m := rfl

@[simp] theorem Mem.keys_set (m : Mem) (p : Ptr) (v : Block) :
    Mem.keys (Mem.set m p v) = Mem.keys m := by
  induction m with
  | nil => rfl
  | cons e m ih =>
    obtain ⟨q, b⟩ := e
    by_cases hq : q = p
    · simp [Mem.set, hq, Mem.keys]
    · simp only [Mem.set, hq, if_false, Mem.keys_cons, ih]

theorem Mem.get_eq_none_of_not_mem {m : Mem} {p : Ptr} (hp : p ∉ Mem.keys m) :
    Mem.get m p = none := by
  induction m with
  | nil => rfl
  | cons e m ih =>
    obtain ⟨q, b⟩ := e
    simp only [Mem.keys_cons, List.mem_cons, not_or] at hp
    rw [Mem.get_cons_ne b m (Ne.symm hp.1)]
    exact ih hp.2

theorem Mem.mem_keys_of_get {m : Mem} {p : Ptr} {b : Block} (hp : Mem.get m p = some b) :
    p ∈ Mem.keys m := by
  by_contra hcon
  rw [Mem.get_eq_none_of_not_mem hcon] at hp
  cases hp

theorem Mem.get_set_same {m : Mem} {p : Ptr} {b : Block} (v : Block)
    (hp : Mem.get m p = some b) : Mem.get (Mem.set m p v) p = some v := by
  induction m with
  | nil => cases hp
  | cons e m ih =>
    obtain ⟨q, c⟩ := e
    by_cases hq : q = p
    · simp [Mem.set, Mem.get, hq]
    · rw [Mem.get_cons_ne c m hq] at hp
      rw [Mem.set_cons_ne c v m hq, Mem.get_cons_ne c _ hq]
      exact ih hp

theorem Mem.get_set_ne (m : Mem) {p q : Ptr} (v : Block) (hne : q ≠ p) :
    Mem.get (Mem.set m p v) q = Mem.get m q := by
  induction m with
  | nil => rfl
  | cons e m ih =>
    obtain ⟨r, c⟩ := e
    by_cases hr : r = p
    · subst hr
      simp [Mem.set, Mem.get, Ne.symm hne]
    · rw [Mem.set_cons_ne c v m hr]
      by_cases hrq : r = q
      · subst hrq; simp
      · rw [Mem.get_cons_ne c _ hrq, Mem.get_cons_ne c _ hrq]
        exact ih

theorem Mem.set_eq_self_of_not_mem {m : Mem} {p : Ptr} (v : Block) (hp : p ∉ Mem.keys m) :
    Mem.set m p v = m := by
  induction m with
  | nil => rfl
  | cons e m ih =>
    obtain ⟨q, b⟩ := e
    simp only [Mem.keys_cons, List.mem_cons, not_or] at hp
    rw [Mem.set_cons_ne b v m (Ne.symm hp.1), ih hp.2]

theorem Mem.erase_eq_self_of_not_mem {m : Mem} {p : Ptr} (hp : p ∉ Mem.keys m) :
    Mem.erase m p = m := by
  induction m with
  | nil => rfl
  | cons e m ih =>
    obtain ⟨q, b⟩ := e
    simp only [Mem.keys_cons, List.mem_cons, not_or] at hp
    rw [Mem.erase_cons_ne b m (Ne.symm hp.1), ih hp.2]

theorem Mem.get_erase_same (m : Mem) (p : Ptr) : Mem.get (Mem.erase m p) p = none := by
  induction m with
  | nil => rfl
  | cons e m ih =>
    obtain ⟨q, b⟩ := e
    by_cases hq : q = p
    · subst hq
      rw [Mem.erase_cons_same]
      exact ih
    · rw [Mem.erase_cons_ne b m hq, Mem.get_cons_ne b _ hq]
      exact ih

theorem Mem.get_erase_ne (m : Mem) {p q : Ptr} (hne : q ≠ p) :
    Mem.get (Mem.erase m p) q = Mem.get m q := by
  induction m with
  | nil => rfl
  | cons e m ih =>
    obtain ⟨r, c⟩ := e
    by_cases hr : r = p
    · subst hr
      rw [Mem.erase_cons_same, Mem.get_cons_ne c m (Ne.symm hne)]
      exact ih
    · rw [Mem.erase_cons_ne c m hr]
      by_cases hrq : r = q
      · subst hrq; simp
      · rw [Mem.get_cons_ne c _ hrq, Mem.get_cons_ne c _ hrq]
        exact ih

/-- Three successive allocations give three distinct non-null addresses, none of them
live before. -/
theorem Allocator.three (A : Allocator) (l : List Ptr) :
    let a := A.pick l
    let b := A.pick (a :: l)
    let c := A.pick (b :: a :: l)
    a ≠ 0 ∧ b ≠ 0 ∧ c ≠ 0 ∧ a ≠ b ∧ a ≠ c ∧ b ≠ c ∧ a ∉ l ∧ b ∉ l ∧ c ∉ l := by
  intro a b c
  have ha := A.pick_fresh l
  have hb := A.pick_fresh (a :: l)
  have hc := A.pick_fresh (b :: a :: l)
  simp only [List.mem_cons, not_or] at hb hc
  exact ⟨A.pick_ne_null _, A.pick_ne_null _, A.pick_ne_null _, Ne.symm hb.1,
    Ne.symm hc.2.1, Ne.symm hc.1, ha, hb.2, hc.2.2⟩

/-! ### What `fiber_create` builds -/

/-- Creating a primary fiber: the three new blocks and the effects, in order. -/
theorem fiber_create_primary_eq (sep : Bool) (A : Allocator) (stack : Nat) (userdata : Ptr)
    (h : Heap) :
    let ret := A.pick h.mem.keys
    let cell := A.pick (ret :: h.mem.keys)
    let ctx := A.pick (cell :: ret :: h.mem.keys)
    fiber_create sep A 0 stack 0 userdata h =
      some (ret,
        { mem := (ctx, Block.ucontext ⟨0, 0, 0, Regs.zeroed⟩) :: (cell, Block.cell ret) ::
                  (ret, Block.fiber ⟨cell, 0, ctx, 0, userdata⟩) :: h.mem,
          log := h.log ++ [Event.alloc ret, Event.write ret, Event.write ret,
                  Event.alloc cell, Event.write ret, Event.alloc ctx, Event.write ctx,
                  Event.read ret, Event.write cell, Event.write ret, Event.write ret] }) := by
  intro ret cell ctx
  obtain ⟨h1, h2, h3, h4, h5, h6, h7, h8, h9⟩ := A.three h.mem.keys
  simp only [fiber_create, fballoc, storeFiber, storeCtx, loadFiber, storeCell]
  simp [Mem.get, Mem.set, h4, h5, h6, Ne.symm h4, Ne.symm h5, Ne.symm h6, ret, cell, ctx]

/-- Creating a minor fiber: the three new blocks and the effects, in order. -/
theorem fiber_create_minor_eq (sep : Bool) (A : Allocator) (primary : Ptr) (stack : Nat)
    (run userdata : Ptr) (h : Heap) (pf : fiber_t)
    (hprimary : primary ≠ 0) (hrun : run ≠ 0)
    (hpf : h.mem.get primary = some (Block.fiber pf)) :
    let ret := A.pick h.mem.keys
    let ctx := A.pick (ret :: h.mem.keys)
    let sp := A.pick (ctx :: ret :: h.mem.keys)
    let size := if stack = 0 then FIBER_STACK_SIZE else stack
    let args := if sep then split_handle ret else [ret]
    fiber_create sep A primary stack run userdata h =
      some (ret,
        { mem := (sp, Block.raw size) :: (ctx, Block.ucontext ⟨sp, size, 0, Regs.entry args⟩) ::
                  (ret, Block.fiber ⟨pf.current, size, ctx, run, userdata⟩) :: h.mem,
          log := h.log ++ [Event.alloc ret, Event.write ret, Event.write ret,
                  Event.alloc ctx, Event.write ctx, Event.write ctx, Event.alloc sp,
                  Event.write ctx, Event.write ctx, Event.write ctx,
                  Event.makecontext ctx args, Event.read primary,
                  Event.write ret, Event.write ret, Event.write ret] }) := by
  intro ret ctx sp size args
  obtain ⟨h1, h2, h3, h4, h5, h6, h7, h8, h9⟩ := A.three h.mem.keys
  have hk := Mem.mem_keys_of_get hpf
  have e1 : ret ≠ primary := fun e => h7 (by rw [show A.pick h.mem.keys = primary from e]; exact hk)
  have e2 : ctx ≠ primary := fun e =>
    h8 (by rw [show A.pick (A.pick h.mem.keys :: h.mem.keys) = primary from e]; exact hk)
  have e3 : sp ≠ primary := fun e => h9 (by
    rw [show A.pick (A.pick (A.pick h.mem.keys :: h.mem.keys) :: A.pick h.mem.keys ::
      h.mem.keys) = primary from e]
    exact hk)
  simp only [fiber_create, fballoc, storeFiber, storeCtx, loadFiber, storeCell, makecontext]
  simp [Mem.get, Mem.set, h4, h5, h6, Ne.symm h4, Ne.symm h5, Ne.symm h6, ret, ctx, sp,
    hprimary, hrun, e1, e2, e3, hpf, size, args]

/-! ### Effects of a run of events -/

theorem allocated_append (a b : List Event) : allocated (a ++ b) = allocated a ++ allocated b := by
  induction a with
  | nil => rfl
  | cons e a ih => cases e <;> simp [allocated, ih]

theorem released_append (a b : List Event) : released (a ++ b) = released a ++ released b := by
  induction a with
  | nil => rfl
  | cons e a ih => cases e <;> simp [released, ih]

/-! ### What `fiber_delete` releases -/

/-- Deleting the minor fiber that sits on top of the heap just as `fiber_create` built it. -/
theorem fiber_delete_minor_top (fb ctx sp : Ptr) (f : fiber_t) (c : ucontext_t) (n : Nat)
    (m : Mem) (l : List Event)
    (hfb : fb ≠ 0) (hctx : ctx ≠ 0) (hsp : sp ≠ 0)
    (h1 : fb ≠ ctx) (h2 : fb ≠ sp) (h3 : ctx ≠ sp)
    (hproc : f.proc ≠ 0) (hfc : f.context = ctx) (hcs : c.ss_sp = sp)
    (k1 : fb ∉ Mem.keys m) (k2 : ctx ∉ Mem.keys m) (k3 : sp ∉ Mem.keys m) :
    fiber_delete fb
        { mem := (sp, Block.raw n) :: (ctx, Block.ucontext c) :: (fb, Block.fiber f) :: m,
          log := l } =
      some (true,
        { mem := m,
          log := l ++ [Event.read fb, Event.read fb, Event.read ctx, Event.free sp,
                  Event.read fb, Event.free ctx, Event.free fb] }) := by
  simp only [fiber_delete, loadFiber, loadCtx, fbfree]
  simp [Mem.get, Mem.erase, hfb, hctx, hsp, h1, h2, h3, Ne.symm h1, Ne.symm h2, Ne.symm h3,
    hproc, hfc, hcs, Mem.erase_eq_self_of_not_mem k1, Mem.erase_eq_self_of_not_mem k2,
    Mem.erase_eq_self_of_not_mem k3]

/-- Deleting the primary fiber that sits on top of the heap just as `fiber_create` built it. -/
theorem fiber_delete_primary_top (fb cell ctx : Ptr) (f : fiber_t) (c : ucontext_t) (v : Ptr)
    (m : Mem) (l : List Event)
    (hfb : fb ≠ 0) (hcell : cell ≠ 0) (hctx : ctx ≠ 0)
    (h1 : fb ≠ cell) (h2 : fb ≠ ctx) (h3 : cell ≠ ctx)
    (hproc : f.proc = 0) (hfc : f.context = ctx) (hcur : f.current = cell)
    (k1 : fb ∉ Mem.keys m) (k2 : cell ∉ Mem.keys m) (k3 : ctx ∉ Mem.keys m) :
    fiber_delete fb
        { mem := (ctx, Block.ucontext c) :: (cell, Block.cell v) :: (fb, Block.fiber f) :: m,
          log := l } =
      some (true,
        { mem := m,
          log := l ++ [Event.read fb, Event.read fb, Event.free cell,
                  Event.read fb, Event.free ctx, Event.free fb] }) := by
  simp only [fiber_delete, loadFiber, loadCtx, fbfree]
  simp [Mem.get, Mem.erase, hfb, hctx, hcell, h1, h2, h3, Ne.symm h1, Ne.symm h2, Ne.symm h3,
    hproc, hfc, hcur, Mem.erase_eq_self_of_not_mem k1, Mem.erase_eq_self_of_not_mem k2,
    Mem.erase_eq_self_of_not_mem k3]

theorem delete_all_append (l1 l2 : List Ptr) (h : Heap) :
    delete_all (l1 ++ l2) h =
      (delete_all l1 h).bind (fun r1 =>
        (delete_all l2 r1.2).bind (fun r2 => some (r1.1 ++ r2.1, r2.2))) := by
  induction l1 generalizing h with
  | nil =>
    simp only [List.nil_append, delete_all, Option.some_bind]
    cases delete_all l2 h <;> simp
  | cons a l1 ih =>
    simp only [List.cons_append, delete_all]
    cases hd : fiber_delete a h with
    | none => simp
    | some r =>
      obtain ⟨r, h1⟩ := r
      simp only [Option.bind_eq_bind, Option.some_bind]
      have e : l1.append l2 = l1 ++ l2 := rfl
      rw [e, ih h1]
      cases h1d : delete_all l1 h1 with
      | none => simp
      | some r1 =>
        simp only [Option.some_bind]
        cases h2d : delete_all l2 r1.2 <;> simp

/-- Creating minors and deleting them last-created first brings the memory back, every
deletion succeeds, and the blocks released are the blocks allocated. -/
theorem minors_life (sep : Bool) (A : Allocator) (primary : Ptr) (pf : fiber_t)
    (hprimary : primary ≠ 0) (minors : List (Nat × Ptr × Ptr))
    (hruns : ∀ a ∈ minors, a.2.1 ≠ 0) :
    ∀ h : Heap, h.mem.get primary = some (Block.fiber pf) →
    ∃ fbs h2 h3 evc evd,
      create_minors sep A primary minors h = some (fbs, h2) ∧
      h2.log = h.log ++ evc ∧
      delete_all fbs.reverse h2 = some (List.replicate minors.length true, h3) ∧
      h3.mem = h.mem ∧ h3.log = h2.log ++ evd ∧
      released evc = [] ∧ allocated evd = [] ∧
      (released evd).Perm (allocated evc) ∧ (allocated evc).Nodup ∧
      (∀ x ∈ allocated evc, x ∉ h.mem.keys) ∧
      (allocated evc).length = 3 * minors.length := by
  induction minors with
  | nil =>
    intro h _
    exact ⟨[], h, h, [], [], rfl, by simp, rfl, rfl, by simp, rfl, rfl, List.Perm.refl _,
      List.nodup_nil, by simp [allocated], rfl⟩
  | cons a rest ih =>
    intro h hpf
    obtain ⟨stack, run, ud⟩ := a
    have hrun : run ≠ 0 := hruns (stack, run, ud) (List.mem_cons_self _ _)
    have hrest : ∀ a ∈ rest, a.2.1 ≠ 0 := fun a ha => hruns a (List.mem_cons_of_mem _ ha)
    obtain ⟨n1, n2, n3, d1, d2, d3, f1, f2, f3⟩ := A.three h.mem.keys
    have hk := Mem.mem_keys_of_get hpf
    have hc := fiber_create_minor_eq sep A primary stack run ud h pf hprimary hrun hpf
    simp only at hc
    generalize hret : A.pick h.mem.keys = ret at hc n1 d1 d2 f1 d3 f2 f3 n2 n3
    generalize hctx : A.pick (ret :: h.mem.keys) = ctx at hc n2 d1 d3 f2 d2 f3 n3
    generalize hsp : A.pick (ctx :: ret :: h.mem.keys) = sp at hc n3 d2 d3 f3
    generalize hsize : (if stack = 0 then FIBER_STACK_SIZE else stack) = size at hc
    generalize hargs : (if sep = true then split_handle ret else [ret]) = args at hc
    have e1 : ret ≠ primary := fun e => f1 (e ▸ hk)
    have e2 : ctx ≠ primary := fun e => f2 (e ▸ hk)
    have e3 : sp ≠ primary := fun e => f3 (e ▸ hk)
    obtain ⟨h1, hh1⟩ : ∃ h1 : Heap, Heap.mk ((sp, Block.raw size) ::
        (ctx, Block.ucontext ⟨sp, size, 0, Regs.entry args⟩) ::
        (ret, Block.fiber ⟨pf.current, size, ctx, run, ud⟩) :: h.mem)
      (h.log ++ [Event.alloc ret, Event.write ret, Event.write ret,
        Event.alloc ctx, Event.write ctx, Event.write ctx, Event.alloc sp,
        Event.write ctx, Event.write ctx, Event.write ctx,
        Event.makecontext ctx args, Event.read primary,
        Event.write ret, Event.write ret, Event.write ret]) = h1 := ⟨_, rfl⟩
    rw [hh1] at hc
    have hpf1 : h1.mem.get primary = some (Block.fiber pf) := by
      subst hh1
      simp only
      rw [Mem.get_cons_ne _ _ e3, Mem.get_cons_ne _ _ e2, Mem.get_cons_ne _ _ e1]
      exact hpf
    obtain ⟨fbs, h2, h3, evc, evd, c1, c2, c3, c4, c5, c6, c7, c8, c9, c10, c11⟩ :=
      ih hrest h1 hpf1
    have hdel : fiber_delete ret h3 =
        some (true, Heap.mk h.mem
          (h3.log ++ [Event.read ret, Event.read ret, Event.read ctx, Event.free sp,
                  Event.read ret, Event.free ctx, Event.free ret])) := by
      have e : h3 = Heap.mk ((sp, Block.raw size) ::
          (ctx, Block.ucontext ⟨sp, size, 0, Regs.entry args⟩) ::
          (ret, Block.fiber ⟨pf.current, size, ctx, run, ud⟩) :: h.mem) h3.log := by
        cases h3
        simp only at c4
        subst c4
        subst hh1
        rfl
      rw [e]
      exact fiber_delete_minor_top ret ctx sp _ _ size h.mem h3.log n1 n2 n3 d1 d2 d3 hrun rfl rfl
        f1 f2 f3
    refine ⟨ret :: fbs, h2, Heap.mk h.mem
        (h3.log ++ [Event.read ret, Event.read ret, Event.read ctx, Event.free sp,
          Event.read ret, Event.free ctx, Event.free ret]), [Event.alloc ret, Event.write ret, Event.write ret,
        Event.alloc ctx, Event.write ctx, Event.write ctx, Event.alloc sp,
        Event.write ctx, Event.write ctx, Event.write ctx,
        Event.makecontext ctx args, Event.read primary,
        Event.write ret, Event.write ret, Event.write ret] ++ evc,
      evd ++ [Event.read ret, Event.read ret, Event.read ctx, Event.free sp,
        Event.read ret, Event.free ctx, Event.free ret], ?_, ?_, ?_, rfl, ?_, ?_, ?_, ?_, ?_,
      ?_, ?_⟩
    · simp only [create_minors, hc, Option.bind_eq_bind, Option.some_bind, c1]
    · rw [c2, ← hh1]
      simp
    · rw [List.reverse_cons, delete_all_append, c3]
      simp only [Option.some_bind, delete_all, hdel, Option.bind_eq_bind, List.length_cons]
      rw [List.replicate_succ']
    · rw [c5]
      simp
    · rw [released_append, c6]
      simp [released]
    · rw [allocated_append, c7]
      simp [allocated]
    · rw [released_append, allocated_append]
      simp only [released, allocated, List.append_nil]
      have := c8.append_right [sp, ctx, ret]
      refine this.trans ?_
      refine List.perm_append_comm.trans ?_
      simp only [List.cons_append, List.nil_append]
      refine (List.Perm.swap ctx sp _).trans ?_
      refine ((List.Perm.swap ret sp _).cons ctx).trans ?_
      exact List.Perm.swap ret ctx _
    · rw [allocated_append]
      simp only [allocated, List.cons_append, List.nil_append, List.nodup_cons, List.mem_cons]
      have key : ∀ x ∈ allocated evc, x ≠ sp ∧ x ≠ ctx ∧ x ≠ ret ∧ x ∉ h.mem.keys := by
        intro x hx
        have := c10 x hx
        rw [← hh1] at this
        simp only [Mem.keys_cons, List.mem_cons, not_or] at this
        exact this
      refine ⟨?_, ?_, ?_, c9⟩
      · rintro (e | e | e)
        · exact d1 e
        · exact d2 e
        · exact (key ret e).2.2.1 rfl
      · rintro (e | e)
        · exact d3 e
        · exact (key ctx e).2.1 rfl
      · intro e
        exact (key sp e).1 rfl
    · intro x hx
      rw [allocated_append] at hx
      simp only [allocated, List.cons_append, List.nil_append, List.mem_cons] at hx
      rcases hx with e | e | e | e
      · subst e; exact f1
      · subst e; exact f2
      · subst e; exact f3
      · have := c10 x e
        rw [← hh1] at this
        simp only [Mem.keys_cons, List.mem_cons, not_or] at this
        exact this.2.2.2
    · rw [allocated_append]
      simp only [allocated, List.cons_append, List.nil_append, List.length_cons, c11]
      omega

/-- The whole life of a family leaves the memory as it found it: every deletion returns
true, and the blocks released are exactly the blocks allocated, each of them once. -/
theorem family_life_balanced (sep : Bool) (A : Allocator) (stack : Nat) (userdata : Ptr)
    (minors : List (Nat × Ptr × Ptr)) (hruns : ∀ a ∈ minors, a.2.1 ≠ 0) (h : Heap) :
    ∃ h4 evs,
      family_life sep A stack userdata minors h =
        some (List.replicate minors.length true, true, h4) ∧
      h4.mem = h.mem ∧ h4.log = h.log ++ evs ∧
      (allocated evs).Nodup ∧ (released evs).Perm (allocated evs) ∧
      (allocated evs).length = 3 * (minors.length + 1) ∧
      (∀ x ∈ allocated evs, x ∉ h.mem.keys) := by
  obtain ⟨n1, n2, n3, d1, d2, d3, f1, f2, f3⟩ := A.three h.mem.keys
  have hc := fiber_create_primary_eq sep A stack userdata h
  simp only at hc
  generalize hret : A.pick h.mem.keys = ret at hc n1 d1 d2 f1 d3 f2 f3 n2 n3
  generalize hcell : A.pick (ret :: h.mem.keys) = cell at hc n2 d1 d3 f2 d2 f3 n3
  generalize hctx : A.pick (cell :: ret :: h.mem.keys) = ctx at hc n3 d2 d3 f3
  obtain ⟨h1, hh1⟩ : ∃ h1 : Heap, Heap.mk ((ctx, Block.ucontext ⟨0, 0, 0, Regs.zeroed⟩) ::
        (cell, Block.cell ret) :: (ret, Block.fiber ⟨cell, 0, ctx, 0, userdata⟩) :: h.mem)
      (h.log ++ [Event.alloc ret, Event.write ret, Event.write ret,
        Event.alloc cell, Event.write ret, Event.alloc ctx, Event.write ctx,
        Event.read ret, Event.write cell, Event.write ret, Event.write ret]) = h1 := ⟨_, rfl⟩
  rw [hh1] at hc
  have hpf1 : h1.mem.get ret = some (Block.fiber ⟨cell, 0, ctx, 0, userdata⟩) := by
    subst hh1
    simp only
    rw [Mem.get_cons_ne _ _ (Ne.symm d2), Mem.get_cons_ne _ _ (Ne.symm d1)]
    exact Mem.get_cons_same _ _ _
  obtain ⟨fbs, h2, h3, evc, evd, c1, c2, c3, c4, c5, c6, c7, c8, c9, c10, c11⟩ :=
    minors_life sep A ret _ n1 minors hruns h1 hpf1
  have hdel : fiber_delete ret h3 =
      some (true, Heap.mk h.mem
        (h3.log ++ [Event.read ret, Event.read ret, Event.free cell,
                Event.read ret, Event.free ctx, Event.free ret])) := by
    have e : h3 = Heap.mk ((ctx, Block.ucontext ⟨0, 0, 0, Regs.zeroed⟩) ::
        (cell, Block.cell ret) :: (ret, Block.fiber ⟨cell, 0, ctx, 0, userdata⟩) :: h.mem)
        h3.log := by
      cases h3
      simp only at c4
      subst c4
      subst hh1
      rfl
    rw [e]
    exact fiber_delete_primary_top ret cell ctx _ _ ret h.mem h3.log n1 n2 n3 d1 d2 d3 rfl rfl rfl
      f1 f2 f3
  have key : ∀ x ∈ allocated evc, x ≠ ctx ∧ x ≠ cell ∧ x ≠ ret ∧ x ∉ h.mem.keys := by
    intro x hx
    have := c10 x hx
    rw [← hh1] at this
    simp only [Mem.keys_cons, List.mem_cons, not_or] at this
    exact this
  have ha : allocated ([Event.alloc ret, Event.write ret, Event.write ret,
        Event.alloc cell, Event.write ret, Event.alloc ctx, Event.write ctx,
        Event.read ret, Event.write cell, Event.write ret, Event.write ret] ++ (evc ++ (evd ++
      [Event.read ret, Event.read ret, Event.free cell,
                Event.read ret, Event.free ctx, Event.free ret]))) =
      ret :: cell :: ctx :: allocated evc := by
    rw [allocated_append, allocated_append, allocated_append, c7]
    simp [allocated]
  have hr : released ([Event.alloc ret, Event.write ret, Event.write ret,
        Event.alloc cell, Event.write ret, Event.alloc ctx, Event.write ctx,
        Event.read ret, Event.write cell, Event.write ret, Event.write ret] ++ (evc ++ (evd ++
      [Event.read ret, Event.read ret, Event.free cell,
                Event.read ret, Event.free ctx, Event.free ret]))) =
      released evd ++ [cell, ctx, ret] := by
    rw [released_append, released_append, released_append, c6]
    simp [released]
  refine ⟨Heap.mk h.mem
      (h3.log ++ [Event.read ret, Event.read ret, Event.free cell,
                Event.read ret, Event.free ctx, Event.free ret]),
    [Event.alloc ret, Event.write ret, Event.write ret,
        Event.alloc cell, Event.write ret, Event.alloc ctx, Event.write ctx,
        Event.read ret, Event.write cell, Event.write ret, Event.write ret] ++ (evc ++ (evd ++
      [Event.read ret, Event.read ret, Event.free cell,
                Event.read ret, Event.free ctx, Event.free ret])), ?_, rfl, ?_, ?_, ?_, ?_, ?_⟩
  · simp only [family_life, hc, Option.bind_eq_bind, Option.some_bind, c1, c3, hdel]
  · simp only [c5, c2, ← hh1, List.append_assoc]
  · rw [ha]
    simp only [List.nodup_cons, List.mem_cons]
    refine ⟨?_, ?_, ?_, c9⟩
    · rintro (e | e | e)
      · exact d1 e
      · exact d2 e
      · exact (key ret e).2.2.1 rfl
    · rintro (e | e)
      · exact d3 e
      · exact (key cell e).2.1 rfl
    · intro e
      exact (key ctx e).1 rfl
  · rw [ha, hr]
    have := c8.append_right [cell, ctx, ret]
    refine this.trans ?_
    refine List.perm_append_comm.trans ?_
    simp only [List.cons_append, List.nil_append]
    refine (List.Perm.swap ctx cell _).trans ?_
    refine ((List.Perm.swap ret cell _).cons ctx).trans ?_
    refine (List.Perm.swap ret ctx _).trans ?_
    exact (List.Perm.swap cell ctx _).cons ret
  · rw [ha]
    simp only [List.length_cons, c11]
    omega
  · intro x hx
    rw [ha] at hx
    simp only [List.mem_cons] at hx
    rcases hx with e | e | e | e
    · subst e; exact f1
    · subst e; exact f2
    · subst e; exact f3
    · exact (key x e).2.2.2

/-- Deleting a minor fiber anywhere in a heap: its stack, its context record and its handle
are released, in that order, and nothing else. -/
theorem fiber_delete_minor_eq (h : Heap) (fb : Ptr) (f : fiber_t) (c : ucontext_t) (n : Nat)
    (hnull : h.mem.get 0 = none)
    (hfb : h.mem.get fb = some (Block.fiber f)) (hproc : f.proc ≠ 0)
    (hctx : h.mem.get f.context = some (Block.ucontext c))
    (hsp : h.mem.get c.ss_sp = some (Block.raw n)) :
    fiber_delete fb h =
      some (true, Heap.mk (((h.mem.erase c.ss_sp).erase f.context).erase fb)
        (h.log ++ [Event.read fb, Event.read fb, Event.read f.context, Event.free c.ss_sp,
          Event.read fb, Event.free f.context, Event.free fb])) := by
  have n1 : fb ≠ 0 := fun e => by rw [e, hnull] at hfb; cases hfb
  have n2 : f.context ≠ 0 := fun e => by rw [e, hnull] at hctx; cases hctx
  have n3 : c.ss_sp ≠ 0 := fun e => by rw [e, hnull] at hsp; cases hsp
  have d1 : fb ≠ c.ss_sp := fun e => by rw [← e, hfb] at hsp; cases hsp
  have d2 : f.context ≠ c.ss_sp := fun e => by rw [← e, hctx] at hsp; cases hsp
  have d3 : fb ≠ f.context := fun e => by rw [← e, hfb] at hctx; cases hctx
  have g1 : (h.mem.erase c.ss_sp).get fb = some (Block.fiber f) := by
    rw [Mem.get_erase_ne _ d1]; exact hfb
  have g2 : (h.mem.erase c.ss_sp).get f.context = some (Block.ucontext c) := by
    rw [Mem.get_erase_ne _ d2]; exact hctx
  have g3 : ((h.mem.erase c.ss_sp).erase f.context).get fb = some (Block.fiber f) := by
    rw [Mem.get_erase_ne _ d3]; exact g1
  simp only [fiber_delete, loadFiber, loadCtx, fbfree]
  simp [n1, n2, n3, hfb, hproc, hctx, hsp, g1, g2, g3]

/-- Deleting a primary fiber anywhere in a heap: the shared cell, its context record and
its handle are released, in that order, and nothing else. -/
theorem fiber_delete_primary_eq (h : Heap) (fb : Ptr) (f : fiber_t) (c : ucontext_t) (v : Ptr)
    (hnull : h.mem.get 0 = none)
    (hfb : h.mem.get fb = some (Block.fiber f)) (hproc : f.proc = 0)
    (hctx : h.mem.get f.context = some (Block.ucontext c))
    (hcell : h.mem.get f.current = some (Block.cell v)) :
    fiber_delete fb h =
      some (true, Heap.mk (((h.mem.erase f.current).erase f.context).erase fb)
        (h.log ++ [Event.read fb, Event.read fb, Event.free f.current,
          Event.read fb, Event.free f.context, Event.free fb])) := by
  have n1 : fb ≠ 0 := fun e => by rw [e, hnull] at hfb; cases hfb
  have n2 : f.context ≠ 0 := fun e => by rw [e, hnull] at hctx; cases hctx
  have n3 : f.current ≠ 0 := fun e => by rw [e, hnull] at hcell; cases hcell
  have d1 : fb ≠ f.current := fun e => by rw [← e, hfb] at hcell; cases hcell
  have d2 : f.context ≠ f.current := fun e => by rw [← e, hctx] at hcell; cases hcell
  have d3 : fb ≠ f.context := fun e => by rw [← e, hfb] at hctx; cases hctx
  have g1 : (h.mem.erase f.current).get fb = some (Block.fiber f) := by
    rw [Mem.get_erase_ne _ d1]; exact hfb
  have g2 : (h.mem.erase f.current).get f.context = some (Block.ucontext c) := by
    rw [Mem.get_erase_ne _ d2]; exact hctx
  have g3 : ((h.mem.erase f.current).erase f.context).get fb = some (Block.fiber f) := by
    rw [Mem.get_erase_ne _ d3]; exact g1
  simp only [fiber_delete, loadFiber, loadCtx, fbfree]
  simp [n1, n2, n3, hfb, hproc, hctx, hcell, g1, g2, g3]

/-! ### What `fiber_switch` and `swapcontext` do -/

theorem Mem.get_set (m : Mem) (p q : Ptr) (v : Block) :
    Mem.get (Mem.set m p v) q = if q = p then (Mem.get m p).map (fun _ => v) else Mem.get m q := by
  by_cases hq : q = p
  · subst hq
    rw [if_pos rfl]
    cases hg : Mem.get m q with
    | none =>
      have : q ∉ Mem.keys m := fun hmem => by
        induction m with
        | nil => cases hmem
        | cons e m ih =>
          obtain ⟨r, c⟩ := e
          by_cases hr : r = q
          · subst hr; simp at hg
          · rw [Mem.get_cons_ne c m hr] at hg
            simp only [Mem.keys_cons, List.mem_cons] at hmem
            rcases hmem with e | e
            · exact hr e.symm
            · exact ih hg e
      rw [Mem.set_eq_self_of_not_mem v this, hg]
      rfl
    | some b => exact Mem.get_set_same v hg
  · rw [if_neg hq]
    exact Mem.get_set_ne m v hq

/-- The first half of `fiber_switch` on a live fiber whose cell holds a live fiber: one
write, of `fb` into the shared cell, then the request to swap from the context of the fiber
the cell held to the context of `fb`. -/
theorem fiber_switch_enter_eq (h : Heap) (fb : Ptr) (f : fiber_t) (cur : Ptr) (fc : fiber_t)
    (hfb0 : fb ≠ 0) (hfb : h.mem.get fb = some (Block.fiber f))
    (hcell : h.mem.get f.current = some (Block.cell cur))
    (hcur : h.mem.get cur = some (Block.fiber fc)) :
    fiber_switch_enter fb h =
      some (SwitchStep.swap fc.context f.context,
        Heap.mk (h.mem.set f.current (Block.cell fb))
          (h.log ++ [Event.read fb, Event.read f.current, Event.read fb,
            Event.write f.current, Event.read cur, Event.read fb])) := by
  have d1 : fb ≠ f.current := fun e => by rw [← e, hfb] at hcell; cases hcell
  have d2 : cur ≠ f.current := fun e => by rw [← e, hcur] at hcell; cases hcell
  have g1 : (h.mem.set f.current (Block.cell fb)).get fb = some (Block.fiber f) := by
    rw [Mem.get_set_ne _ _ d1]; exact hfb
  have g2 : (h.mem.set f.current (Block.cell fb)).get cur = some (Block.fiber fc) := by
    rw [Mem.get_set_ne _ _ d2]; exact hcur
  simp only [fiber_switch_enter, loadFiber, loadCell, storeCell]
  simp [hfb0, hfb, hcell, hcur, g1, g2]

/-- What `swapcontext` does between two live contexts: the running call stack is stored in
the first, and the state of the second (after that store) is handed back. -/
theorem swapcontext_eq (h : Heap) (oucp ucp : Ptr) (k : List Frame) (co cu : ucontext_t)
    (ho : h.mem.get oucp = some (Block.ucontext co))
    (hu : h.mem.get ucp = some (Block.ucontext cu)) :
    swapcontext oucp ucp k h =
      some (if ucp = oucp then Regs.saved k else cu.regs,
        Heap.mk (h.mem.set oucp (Block.ucontext { co with regs := Regs.saved k }))
          (h.log ++ [Event.swapcontext oucp ucp])) := by
  simp only [swapcontext, ho]
  rw [Mem.get_set, ho]
  by_cases e : ucp = oucp
  · simp [e]
  · simp [e, hu]

/-! ### The claims -/

/-- C6: `fiber_switch(NULL)`, `fiber_delete(NULL)` and `fiber_is_current(NULL)` each return
false in every heap, and leave the memory and the effect log as they were: no field is
read, no cell is written, nothing is released, and `fiber_switch` reaches no
`swapcontext`. -/
theorem C6_null_handle_is_rejected (h : Heap) :
    fiber_switch_enter 0 h = some (SwitchStep.ret false, h) ∧
    fiber_delete 0 h = some (false, h) ∧
    fiber_is_current 0 h = some (false, h) := by
  simp [fiber_switch_enter, fiber_delete, fiber_is_current]

/-- C3: when `primary` is null or points to a live fiber, `fiber_create` returns, and it
returns null if and only if exactly one of `primary` and `run` is null; creating a minor
fiber (`run` non-null) with no primary always gives null; and a rejected call returns the
heap it was given: nothing is allocated, no state changes. -/
theorem C3_create_rejects_nullity_mismatch (sep : Bool) (A : Allocator)
    (primary : Ptr) (stack : Nat) (run userdata : Ptr) (h : Heap)
    (hvalid : primary ≠ 0 → run ≠ 0 → ∃ pf, h.mem.get primary = some (Block.fiber pf)) :
    ∃ ret h2, fiber_create sep A primary stack run userdata h = some (ret, h2) ∧
      (ret = 0 ↔ ((primary = 0 ∧ run ≠ 0) ∨ (primary ≠ 0 ∧ run = 0))) ∧
      (primary = 0 → run ≠ 0 → ret = 0) ∧
      (ret = 0 → h2 = h) := by
  by_cases hp : primary = 0
  · by_cases hr : run = 0
    · subst hp; subst hr
      have hc := fiber_create_primary_eq sep A stack userdata h
      simp only at hc
      refine ⟨_, _, hc, ?_, ?_, ?_⟩
      · simp [A.pick_ne_null]
      · intro _ hne; exact absurd rfl hne
      · intro e; exact absurd e (A.pick_ne_null _)
    · refine ⟨0, h, ?_, ?_, ?_, ?_⟩
      · simp [fiber_create, hp, hr]
      · simp [hp, hr]
      · intro _ _; rfl
      · intro _; rfl
  · by_cases hr : run = 0
    · refine ⟨0, h, ?_, ?_, ?_, ?_⟩
      · simp [fiber_create, hp, hr]
      · simp [hp, hr]
      · intro _ _; rfl
      · intro _; rfl
    · obtain ⟨pf, hpf⟩ := hvalid hp hr
      have hc := fiber_create_minor_eq sep A primary stack run userdata h pf hp hr hpf
      simp only at hc
      refine ⟨_, _, hc, ?_, ?_, ?_⟩
      · simp [A.pick_ne_null, hp, hr]
      · intro e; exact absurd e hp
      · intro e; exact absurd e (A.pick_ne_null _)

/-- Witness of C3: a minor fiber asked for while no primary exists, in the empty heap. -/
theorem C3_create_rejects_nullity_mismatch_witness :
    ∃ ret h2, fiber_create false bump 0 0 FIBER1 1000 emptyHeap = some (ret, h2) ∧
      (ret = 0 ↔ (((0 : Ptr) = 0 ∧ FIBER1 ≠ 0) ∨ ((0 : Ptr) ≠ 0 ∧ FIBER1 = 0))) ∧
      ((0 : Ptr) = 0 → FIBER1 ≠ 0 → ret = 0) ∧
      (ret = 0 → h2 = emptyHeap) :=
  C3_create_rejects_nullity_mismatch false bump 0 0 FIBER1 1000 emptyHeap
    (fun hne => absurd rfl hne)

/-- C4: for every stack argument and userdata, `fiber_create(NULL, stack, NULL, userdata)`
returns a non-null primary fiber whose `proc` is null, whose `stack_size` is 0, whose
`userdata` is the given pointer, and whose `current` is a cell that was not live before,
is allocated by this call, and holds the new fiber; `fiber_is_current` of the result is
true. -/
theorem C4_create_primary (sep : Bool) (A : Allocator) (stack : Nat) (userdata : Ptr)
    (h : Heap) :
    ∃ ret cell ctx h2 evs,
      fiber_create sep A 0 stack 0 userdata h = some (ret, h2) ∧ ret ≠ 0 ∧
      h2.mem.get ret = some (Block.fiber ⟨cell, 0, ctx, 0, userdata⟩) ∧
      h2.log = h.log ++ evs ∧ cell ∈ allocated evs ∧ cell ∉ h.mem.keys ∧
      h2.mem.get cell = some (Block.cell ret) ∧
      (fiber_is_current ret h2).map Prod.fst = some true := by
  obtain ⟨n1, n2, n3, d1, d2, d3, f1, f2, f3⟩ := A.three h.mem.keys
  have hc := fiber_create_primary_eq sep A stack userdata h
  simp only at hc
  generalize A.pick h.mem.keys = ret at hc n1 d1 d2 f1 d3 f2 f3 n2 n3
  generalize A.pick (ret :: h.mem.keys) = cell at hc n2 d1 d3 f2 d2 f3 n3
  generalize A.pick (cell :: ret :: h.mem.keys) = ctx at hc n3 d2 d3 f3
  refine ⟨ret, cell, ctx, _, _, hc, n1, ?_, rfl, ?_, f2, ?_, ?_⟩
  · simp [Mem.get, Ne.symm d1, Ne.symm d2]
  · simp [allocated]
  · simp [Mem.get, Ne.symm d3]
  · simp [fiber_is_current, loadFiber, loadCell, Mem.get, Ne.symm d1, Ne.symm d2, Ne.symm d3,
      n1]

/-- A live address differs from the address the allocator picks. -/
theorem Allocator.pick_ne_of_get (A : Allocator) {m : Mem} {p : Ptr} {b : Block}
    (l : List Ptr) (hp : Mem.get m p = some b) (hl : ∀ x ∈ Mem.keys m, x ∈ l) :
    A.pick l ≠ p := by
  intro e
  exact A.pick_fresh l (e ▸ hl p (Mem.mem_keys_of_get hp))

/-- C5: for non-null `primary` (a live fiber whose cell holds a live fiber `cur` of the same
family) and non-null `run`, `fiber_create(primary, stack, run, userdata)` returns a
non-null minor fiber with `proc = run`, `userdata = userdata`, `stack_size = stack` when
`stack != 0` and `FIBER_STACK_SIZE = 1048576` when `stack = 0` (never zero), and `current`
the very cell of `primary`; the call does not run the fiber: the cell is not written and
still holds `cur`, no `swapcontext` happens, the new context still waits at its entry, so
`cur` stays current and `fiber_is_current` of the new fiber is false. -/
theorem C5_create_minor (sep : Bool) (A : Allocator) (primary : Ptr) (stack : Nat)
    (run userdata : Ptr) (h : Heap) (pf : fiber_t) (cur : Ptr) (cf : fiber_t)
    (hprimary : primary ≠ 0) (hrun : run ≠ 0)
    (hpf : h.mem.get primary = some (Block.fiber pf))
    (hcell : h.mem.get pf.current = some (Block.cell cur))
    (hcur : h.mem.get cur = some (Block.fiber cf))
    (hfam : cf.current = pf.current) (hcur0 : cur ≠ 0) :
    ∃ ret ctx sp h2 evs,
      fiber_create sep A primary stack run userdata h = some (ret, h2) ∧ ret ≠ 0 ∧
      h2.mem.get ret = some (Block.fiber
        ⟨pf.current, if stack = 0 then FIBER_STACK_SIZE else stack, ctx, run, userdata⟩) ∧
      FIBER_STACK_SIZE = 1048576 ∧
      (if stack = 0 then FIBER_STACK_SIZE else stack) ≠ 0 ∧
      h2.mem.get pf.current = some (Block.cell cur) ∧
      h2.log = h.log ++ evs ∧ pf.current ∉ written evs ∧
      (∀ o u, Event.swapcontext o u ∉ evs) ∧
      h2.mem.get ctx = some (Block.ucontext
        ⟨sp, if stack = 0 then FIBER_STACK_SIZE else stack, 0,
          Regs.entry (if sep then split_handle ret else [ret])⟩) ∧
      (fiber_is_current cur h).map Prod.fst = some true ∧
      (fiber_is_current cur h2).map Prod.fst = some true ∧
      (fiber_is_current ret h2).map Prod.fst = some false := by
  obtain ⟨n1, n2, n3, d1, d2, d3, f1, f2, f3⟩ := A.three h.mem.keys
  have hc := fiber_create_minor_eq sep A primary stack run userdata h pf hprimary hrun hpf
  simp only at hc
  have a1 := A.pick_ne_of_get h.mem.keys hpf (fun x hx => hx)
  have a2 := A.pick_ne_of_get (A.pick h.mem.keys :: h.mem.keys) hpf
    (fun x hx => List.mem_cons_of_mem _ hx)
  have a3 := A.pick_ne_of_get (A.pick (A.pick h.mem.keys :: h.mem.keys) ::
      A.pick h.mem.keys :: h.mem.keys) hpf
    (fun x hx => List.mem_cons_of_mem _ (List.mem_cons_of_mem _ hx))
  have b1 := A.pick_ne_of_get h.mem.keys hcell (fun x hx => hx)
  have b2 := A.pick_ne_of_get (A.pick h.mem.keys :: h.mem.keys) hcell
    (fun x hx => List.mem_cons_of_mem _ hx)
  have b3 := A.pick_ne_of_get (A.pick (A.pick h.mem.keys :: h.mem.keys) ::
      A.pick h.mem.keys :: h.mem.keys) hcell
    (fun x hx => List.mem_cons_of_mem _ (List.mem_cons_of_mem _ hx))
  have c1 := A.pick_ne_of_get h.mem.keys hcur (fun x hx => hx)
  have c2 := A.pick_ne_of_get (A.pick h.mem.keys :: h.mem.keys) hcur
    (fun x hx => List.mem_cons_of_mem _ hx)
  have c3 := A.pick_ne_of_get (A.pick (A.pick h.mem.keys :: h.mem.keys) ::
      A.pick h.mem.keys :: h.mem.keys) hcur
    (fun x hx => List.mem_cons_of_mem _ (List.mem_cons_of_mem _ hx))
  generalize A.pick h.mem.keys = ret at hc n1 d1 d2 f1 d3 f2 f3 n2 n3 a1 a2 a3 b1 b2 b3 c1 c2 c3
  generalize A.pick (ret :: h.mem.keys) = ctx at hc n2 d1 d3 f2 d2 f3 n3 a2 a3 b2 b3 c2 c3
  generalize A.pick (ctx :: ret :: h.mem.keys) = sp at hc n3 d2 d3 f3 a3 b3 c3
  have hsize : (if stack = 0 then FIBER_STACK_SIZE else stack) ≠ 0 := by
    by_cases hs : stack = 0
    · simp [hs, FIBER_STACK_SIZE]
    · simp [hs]
  have hcell2 : h.mem.get cf.current = some (Block.cell cur) := by rw [hfam]; exact hcell
  refine ⟨ret, ctx, sp, _, _, hc, n1, ?_, rfl, hsize, ?_, rfl, ?_, ?_, ?_, ?_, ?_, ?_⟩
  · simp [Mem.get, Ne.symm d1, Ne.symm d2]
  · simp [Mem.get, b1, b2, b3, hcell]
  · simp [written, Ne.symm b1, Ne.symm b2]
  · intro o u
    simp
  · simp [Mem.get, Ne.symm d3]
  · simp [fiber_is_current, loadFiber, loadCell, hcur0, hcur, hcell2]
  · simp [fiber_is_current, loadFiber, loadCell, hcur0, hcur, hcell2, Mem.get, c1, c2, c3,
      hfam, b1, b2, b3, hcell]
  · simp [fiber_is_current, loadFiber, loadCell, n1, Mem.get, Ne.symm d1, Ne.symm d2, b1, b2,
      b3, hcell, Ne.symm c1]

/-- Witness of C5: the creation of the second minor fiber of test.c (line 73), in the family
where the primary fiber `1` is current. -/
theorem C5_create_minor_witness :
    ∃ ret ctx sp h2 evs,
      fiber_create false bump 1 0 FIBER2 1000 family3 = some (ret, h2) ∧ ret ≠ 0 ∧
      h2.mem.get ret = some (Block.fiber
        ⟨2, if (0 : Nat) = 0 then FIBER_STACK_SIZE else 0, ctx, FIBER2, 1000⟩) ∧
      FIBER_STACK_SIZE = 1048576 ∧
      (if (0 : Nat) = 0 then FIBER_STACK_SIZE else 0) ≠ 0 ∧
      h2.mem.get 2 = some (Block.cell 1) ∧
      h2.log = family3.log ++ evs ∧ 2 ∉ written evs ∧
      (∀ o u, Event.swapcontext o u ∉ evs) ∧
      h2.mem.get ctx = some (Block.ucontext
        ⟨sp, if (0 : Nat) = 0 then FIBER_STACK_SIZE else 0, 0,
          Regs.entry (if false then split_handle ret else [ret])⟩) ∧
      (fiber_is_current 1 family3).map Prod.fst = some true ∧
      (fiber_is_current 1 h2).map Prod.fst = some true ∧
      (fiber_is_current ret h2).map Prod.fst = some false :=
  C5_create_minor false bump 1 0 FIBER2 1000 family3 ⟨2, 0, 3, 0, 1000⟩ 1 ⟨2, 0, 3, 0, 1000⟩
    (by decide) (by decide) (by decide) (by decide) (by decide) rfl (by decide)

/-- C7, counterexample: the call of test.c line 72, `fiber_create(fb0, 0, fiber1, &test)`,
mixes a zero stack size with a non-null entry callback and returns the non-null handle `4`;
and `fiber_create(0, 4096, 0, &test)` mixes a non-zero stack size with a null entry callback
and returns the non-null handle `1`. -/
theorem C7_counterexample :
    (fiber_create false bump 1 0 FIBER1 1000 family1).map Prod.fst = some 4 ∧
    (fiber_create false bump 0 4096 0 1000 emptyHeap).map Prod.fst = some 1 := by
  decide

/-- C7, amended: whether `fiber_create` rejects a call depends on `primary` and `run` only,
never on the stack size: it returns null exactly when one of `primary` and `run` is null and
the other is not.  An accepted call with `stack = 0` and a non-null `run` gives a fiber of
stack size `FIBER_STACK_SIZE`, an accepted call with `stack != 0` and a null `run` gives a
fiber of stack size 0; so in every fiber created `stack_size` and `proc` are both zero or
both non-zero. -/
theorem C7_stack_and_proc_agree (sep : Bool) (A : Allocator)
    (primary : Ptr) (stack : Nat) (run userdata : Ptr) (h : Heap)
    (hvalid : primary ≠ 0 → run ≠ 0 → ∃ pf, h.mem.get primary = some (Block.fiber pf)) :
    ∃ ret h2, fiber_create sep A primary stack run userdata h = some (ret, h2) ∧
      (ret = 0 ↔ ((primary = 0 ∧ run ≠ 0) ∨ (primary ≠ 0 ∧ run = 0))) ∧
      (ret ≠ 0 → ∃ f, h2.mem.get ret = some (Block.fiber f) ∧ f.proc = run ∧
        (f.stack_size = 0 ↔ f.proc = 0) ∧
        (run ≠ 0 → stack = 0 → f.stack_size = FIBER_STACK_SIZE) ∧
        (run ≠ 0 → stack ≠ 0 → f.stack_size = stack) ∧
        (run = 0 → f.stack_size = 0)) := by
  by_cases hp : primary = 0
  · by_cases hr : run = 0
    · subst hp; subst hr
      obtain ⟨n1, n2, n3, d1, d2, d3, f1, f2, f3⟩ := A.three h.mem.keys
      have hc := fiber_create_primary_eq sep A stack userdata h
      simp only at hc
      generalize A.pick h.mem.keys = ret at hc n1 d1 d2 f1 d3 f2 f3 n2 n3
      generalize A.pick (ret :: h.mem.keys) = cell at hc n2 d1 d3 f2 d2 f3 n3
      generalize A.pick (cell :: ret :: h.mem.keys) = ctx at hc n3 d2 d3 f3
      refine ⟨_, _, hc, ?_, ?_⟩
      · simp [n1]
      · intro _
        refine ⟨⟨cell, 0, ctx, 0, userdata⟩, ?_, rfl, ?_, ?_, ?_, ?_⟩
        · simp [Mem.get, Ne.symm d1, Ne.symm d2]
        · simp
        · intro e; exact absurd rfl e
        · intro e; exact absurd rfl e
        · intro _; rfl
    · refine ⟨0, h, ?_, ?_, ?_⟩
      · simp [fiber_create, hp, hr]
      · simp [hp, hr]
      · intro e; exact absurd rfl e
  · by_cases hr : run = 0
    · refine ⟨0, h, ?_, ?_, ?_⟩
      · simp [fiber_create, hp, hr]
      · simp [hp, hr]
      · intro e; exact absurd rfl e
    · obtain ⟨pf, hpf⟩ := hvalid hp hr
      obtain ⟨n1, n2, n3, d1, d2, d3, f1, f2, f3⟩ := A.three h.mem.keys
      have hc := fiber_create_minor_eq sep A primary stack run userdata h pf hp hr hpf
      simp only at hc
      generalize A.pick h.mem.keys = ret at hc n1 d1 d2 f1 d3 f2 f3 n2 n3
      generalize A.pick (ret :: h.mem.keys) = ctx at hc n2 d1 d3 f2 d2 f3 n3
      generalize A.pick (ctx :: ret :: h.mem.keys) = sp at hc n3 d2 d3 f3
      refine ⟨_, _, hc, ?_, ?_⟩
      · simp [n1, hp, hr]
      · intro _
        refine ⟨⟨pf.current, if stack = 0 then FIBER_STACK_SIZE else stack, ctx, run,
          userdata⟩, ?_, rfl, ?_, ?_, ?_, ?_⟩
        · simp [Mem.get, Ne.symm d1, Ne.symm d2]
        · by_cases hs : stack = 0
          · simp [hs, hr, FIBER_STACK_SIZE]
          · simp [hs, hr]
        · intro _ hs; simp [hs]
        · intro _ hs; simp [hs]
        · intro e; exact absurd e hr

/-- Witness of the amended C7: the call of test.c line 72. -/
theorem C7_stack_and_proc_agree_witness :
    ∃ ret h2, fiber_create false bump 1 0 FIBER1 1000 family1 = some (ret, h2) ∧
      (ret = 0 ↔ (((1 : Ptr) = 0 ∧ FIBER1 ≠ 0) ∨ ((1 : Ptr) ≠ 0 ∧ FIBER1 = 0))) ∧
      (ret ≠ 0 → ∃ f, h2.mem.get ret = some (Block.fiber f) ∧ f.proc = FIBER1 ∧
        (f.stack_size = 0 ↔ f.proc = 0) ∧
        (FIBER1 ≠ 0 → (0 : Nat) = 0 → f.stack_size = FIBER_STACK_SIZE) ∧
        (FIBER1 ≠ 0 → (0 : Nat) ≠ 0 → f.stack_size = 0) ∧
        (FIBER1 = 0 → f.stack_size = 0)) :=
  C7_stack_and_proc_agree false bump 1 0 FIBER1 1000 family1
    (fun _ _ => ⟨⟨2, 0, 3, 0, 1000⟩, by decide⟩)

/-- Writing a cell or a context record leaves every `fiber_t` as it was. -/
theorem Mem.get_fiber_set_iff (m : Mem) (p b : Ptr) (v : Block) (fb : fiber_t)
    (hv : ∀ f, v ≠ Block.fiber f) (hp : ∀ f, Mem.get m p ≠ some (Block.fiber f)) :
    Mem.get (Mem.set m p v) b = some (Block.fiber fb) ↔ Mem.get m b = some (Block.fiber fb) := by
  rw [Mem.get_set]
  by_cases e : b = p
  · subst e
    rw [if_pos rfl]
    constructor
    · intro hg
      cases hm : Mem.get m b with
      | none => rw [hm] at hg; cases hg
      | some x =>
        rw [hm] at hg
        simp only [Option.map_some', Option.some.injEq] at hg
        exact absurd hg (hv fb)
    · intro hg
      exact absurd hg (hp fb)
  · rw [if_neg e]

/-- C1: in a family (the live fibers sharing one current cell, which holds a live fiber),
for every non-null fiber `a` of the family, once `fiber_switch(a)` has written the cell,
and still after `swapcontext` has given control to `a`, `fiber_is_current(b)` is true for
`b = a` and false for every other fiber `b` of the family: exactly one fiber of the family
is current. -/
theorem C1_exactly_one_current (h : Heap) (a : Ptr) (fa : fiber_t) (cur : Ptr) (fc : fiber_t)
    (co ca : ucontext_t) (k : List Frame)
    (ha : a ≠ 0) (hfa : h.mem.get a = some (Block.fiber fa))
    (hcell : h.mem.get fa.current = some (Block.cell cur))
    (hcur : h.mem.get cur = some (Block.fiber fc))
    (hco : h.mem.get fc.context = some (Block.ucontext co))
    (hca : h.mem.get fa.context = some (Block.ucontext ca)) :
    ∃ h1 regs h2,
      fiber_switch_enter a h = some (SwitchStep.swap fc.context fa.context, h1) ∧
      swapcontext fc.context fa.context k h1 = some (regs, h2) ∧
      (∀ b fb, h1.mem.get b = some (Block.fiber fb) ↔ h.mem.get b = some (Block.fiber fb)) ∧
      (∀ b fb, h2.mem.get b = some (Block.fiber fb) ↔ h.mem.get b = some (Block.fiber fb)) ∧
      (∀ b fb, h.mem.get b = some (Block.fiber fb) → fb.current = fa.current →
        (fiber_is_current b h1).map Prod.fst = some (decide (b = a)) ∧
        (fiber_is_current b h2).map Prod.fst = some (decide (b = a))) := by
  have he := fiber_switch_enter_eq h a fa cur fc ha hfa hcell hcur
  have d1 : fc.context ≠ fa.current := fun e => by rw [e, hcell] at hco; cases hco
  have d2 : fa.context ≠ fa.current := fun e => by rw [e, hcell] at hca; cases hca
  have g1 : (h.mem.set fa.current (Block.cell a)).get fc.context = some (Block.ucontext co) := by
    rw [Mem.get_set_ne _ _ d1]; exact hco
  have g2 : (h.mem.set fa.current (Block.cell a)).get fa.context = some (Block.ucontext ca) := by
    rw [Mem.get_set_ne _ _ d2]; exact hca
  have hs := swapcontext_eq (Heap.mk (h.mem.set fa.current (Block.cell a))
      (h.log ++ [Event.read a, Event.read fa.current, Event.read a,
            Event.write fa.current, Event.read cur, Event.read a]))
    fc.context fa.context k co ca g1 g2
  have i1 : ∀ b fb, (h.mem.set fa.current (Block.cell a)).get b = some (Block.fiber fb) ↔
      h.mem.get b = some (Block.fiber fb) := fun b fb =>
    Mem.get_fiber_set_iff _ _ _ _ _ (fun f e => by cases e)
      (fun f e => by rw [hcell] at e; cases e)
  have i2 : ∀ b fb, ((h.mem.set fa.current (Block.cell a)).set fc.context
        (Block.ucontext { co with regs := Regs.saved k })).get b = some (Block.fiber fb) ↔
      h.mem.get b = some (Block.fiber fb) := fun b fb =>
    (Mem.get_fiber_set_iff _ _ _ _ _ (fun f e => by cases e)
      (fun f e => by rw [g1] at e; cases e)).trans (i1 b fb)
  have c1 : (h.mem.set fa.current (Block.cell a)).get fa.current = some (Block.cell a) :=
    Mem.get_set_same _ hcell
  have c2 : ((h.mem.set fa.current (Block.cell a)).set fc.context
        (Block.ucontext { co with regs := Regs.saved k })).get fa.current =
      some (Block.cell a) := by
    rw [Mem.get_set_ne _ _ (Ne.symm d1)]; exact c1
  refine ⟨_, _, _, he, hs, i1, i2, ?_⟩
  intro b fb hb hfam
  by_cases hb0 : b = 0
  · subst hb0
    simp [fiber_is_current, Ne.symm ha]
  · have e1 := (i1 b fb).mpr hb
    have e2 := (i2 b fb).mpr hb
    simp only at e1 e2
    constructor
    · simp [fiber_is_current, loadFiber, loadCell, hb0, e1, hfam, c1, eq_comm]
    · simp [fiber_is_current, loadFiber, loadCell, hb0, e2, hfam, c2, eq_comm]

/-- Witness of C1: the primary fiber of test.c switches to the fiber running `fiber1`
(test.c line 77). -/
theorem C1_exactly_one_current_witness :
    ∃ h1 regs h2,
      fiber_switch_enter 4 family3 = some (SwitchStep.swap 3 5, h1) ∧
      swapcontext 3 5 [Frame.fiber_switch_440] h1 = some (regs, h2) ∧
      (∀ b fb, h1.mem.get b = some (Block.fiber fb) ↔
        family3.mem.get b = some (Block.fiber fb)) ∧
      (∀ b fb, h2.mem.get b = some (Block.fiber fb) ↔
        family3.mem.get b = some (Block.fiber fb)) ∧
      (∀ b fb, family3.mem.get b = some (Block.fiber fb) → fb.current = 2 →
        (fiber_is_current b h1).map Prod.fst = some (decide (b = 4)) ∧
        (fiber_is_current b h2).map Prod.fst = some (decide (b = 4))) :=
  C1_exactly_one_current family3 4 ⟨2, 1048576, 5, 2, 1000⟩ 1 ⟨2, 0, 3, 0, 1000⟩
    ⟨0, 0, 0, Regs.zeroed⟩ ⟨6, 1048576, 0, Regs.entry [4]⟩ [Frame.fiber_switch_440]
    (by decide) (by decide) (by decide) (by decide) (by decide) (by decide)

/-- C9: for every non-null live `fb` whose cell holds a live fiber `cur`, `fiber_switch(fb)`
writes exactly one address before it calls `swapcontext`, the shared cell, which then holds
`fb`; `swapcontext` is the last effect of the call, it stores the running call stack (topped
by the rest of `fiber_switch`) into the context of `cur`, the fiber the cell held before the
write, and hands back the state of the context of `fb`; and what remains of `fiber_switch`
when that call stack is resumed, in whatever heap, returns true and touches nothing. -/
theorem C9_switch_writes_cell_once (sep : Bool) (A : Allocator) (h : Heap) (fb : Ptr)
    (f : fiber_t) (cur : Ptr) (fc : fiber_t) (co cf : ucontext_t) (k : List Frame)
    (hfb0 : fb ≠ 0) (hfb : h.mem.get fb = some (Block.fiber f))
    (hcell : h.mem.get f.current = some (Block.cell cur))
    (hcur : h.mem.get cur = some (Block.fiber fc))
    (hco : h.mem.get fc.context = some (Block.ucontext co))
    (hcf : h.mem.get f.context = some (Block.ucontext cf)) :
    ∃ h1 regs h2 evs,
      fiber_switch_enter fb h = some (SwitchStep.swap fc.context f.context, h1) ∧
      swapcontext fc.context f.context (Frame.fiber_switch_440 :: k) h1 = some (regs, h2) ∧
      h1.log = h.log ++ evs ∧ written evs = [f.current] ∧
      (∀ o u, Event.swapcontext o u ∉ evs) ∧
      h2.log = h1.log ++ [Event.swapcontext fc.context f.context] ∧
      h2.mem.get f.current = some (Block.cell fb) ∧
      h2.mem.get fc.context =
        some (Block.ucontext { co with regs := Regs.saved (Frame.fiber_switch_440 :: k) }) ∧
      regs = (if f.context = fc.context then Regs.saved (Frame.fiber_switch_440 :: k)
              else cf.regs) ∧
      (∀ h3, fiber_switch_resume h3 = (true, h3)) ∧
      (∀ m : Machine, m.status = Status.running → m.stack = Frame.fiber_switch_440 :: k →
        step sep A m = some { m with stack := k }) := by
  have he := fiber_switch_enter_eq h fb f cur fc hfb0 hfb hcell hcur
  have d1 : fc.context ≠ f.current := fun e => by rw [e, hcell] at hco; cases hco
  have d2 : f.context ≠ f.current := fun e => by rw [e, hcell] at hcf; cases hcf
  have g1 : (h.mem.set f.current (Block.cell fb)).get fc.context = some (Block.ucontext co) := by
    rw [Mem.get_set_ne _ _ d1]; exact hco
  have g2 : (h.mem.set f.current (Block.cell fb)).get f.context = some (Block.ucontext cf) := by
    rw [Mem.get_set_ne _ _ d2]; exact hcf
  have hs := swapcontext_eq (Heap.mk (h.mem.set f.current (Block.cell fb))
      (h.log ++ [Event.read fb, Event.read f.current, Event.read fb,
            Event.write f.current, Event.read cur, Event.read fb]))
    fc.context f.context (Frame.fiber_switch_440 :: k) co cf g1 g2
  refine ⟨_, _, _, _, he, hs, rfl, ?_, ?_, rfl, ?_, ?_, rfl, ?_, ?_⟩
  · simp [written]
  · intro o u
    simp
  · simp only
    rw [Mem.get_set_ne _ _ (Ne.symm d1)]
    exact Mem.get_set_same _ hcell
  · exact Mem.get_set_same _ g1
  · intro h3; rfl
  · intro m hm hst
    simp [step, hm, hst, fiber_switch_resume]

/-- Witness of C9: the primary fiber of test.c switches to the fiber running `fiber1`
(test.c line 77). -/
theorem C9_switch_writes_cell_once_witness :
    ∃ h1 regs h2 evs,
      fiber_switch_enter 4 family3 = some (SwitchStep.swap 3 5, h1) ∧
      swapcontext 3 5 (Frame.fiber_switch_440 :: [Frame.user MAIN 5 0 1000]) h1 =
        some (regs, h2) ∧
      h1.log = family3.log ++ evs ∧ written evs = [2] ∧
      (∀ o u, Event.swapcontext o u ∉ evs) ∧
      h2.log = h1.log ++ [Event.swapcontext 3 5] ∧
      h2.mem.get 2 = some (Block.cell 4) ∧
      h2.mem.get 3 =
        some (Block.ucontext { (⟨0, 0, 0, Regs.zeroed⟩ : ucontext_t) with
          regs := Regs.saved (Frame.fiber_switch_440 :: [Frame.user MAIN 5 0 1000]) }) ∧
      regs = (if (5 : Ptr) = 3 then Regs.saved (Frame.fiber_switch_440 ::
                [Frame.user MAIN 5 0 1000])
              else Regs.entry [4]) ∧
      (∀ h3, fiber_switch_resume h3 = (true, h3)) ∧
      (∀ m : Machine, m.status = Status.running →
        m.stack = Frame.fiber_switch_440 :: [Frame.user MAIN 5 0 1000] →
        step false bump m = some { m with stack := [Frame.user MAIN 5 0 1000] }) :=
  C9_switch_writes_cell_once false bump family3 4 ⟨2, 1048576, 5, 2, 1000⟩ 1
    ⟨2, 0, 3, 0, 1000⟩ ⟨0, 0, 0, Regs.zeroed⟩ ⟨6, 1048576, 0, Regs.entry [4]⟩
    [Frame.user MAIN 5 0 1000]
    (by decide) (by decide) (by decide) (by decide) (by decide) (by decide)

/-- The two words of a 64-bit handle are put together again into the handle. -/
theorem join_split_handle (p : Nat) (hp : p < 2 ^ 64) :
    split_handle p = [p % 2 ^ 32, p / 2 ^ 32] ∧ join_handle (p % 2 ^ 32) (p / 2 ^ 32) = p := by
  have e1 : p % 2 ^ 64 = p := Nat.mod_eq_of_lt hp
  have e2 : p &&& 0x00000000ffffffff = p % 2 ^ 32 := Nat.and_pow_two_sub_one_eq_mod p 32
  have h1 : p % 2 ^ 32 < 2 ^ 32 := Nat.mod_lt _ (by norm_num)
  have h2 : p / 2 ^ 32 < 2 ^ 32 := by omega
  constructor
  · simp only [split_handle]
    rw [e1, e2, Nat.shiftRight_eq_div_pow]
    have e3 : p % 2 ^ 32 % 2 ^ 32 = p % 2 ^ 32 := by omega
    have e4 : p / 2 ^ 32 % 2 ^ 32 = p / 2 ^ 32 := by omega
    rw [e3, e4]
  · simp only [join_handle]
    rw [Nat.shiftLeft_eq]
    have e3 : p % 2 ^ 32 % 2 ^ 32 % 2 ^ 64 = p % 2 ^ 32 := by omega
    have e4 : p / 2 ^ 32 % 2 ^ 32 % 2 ^ 64 = p / 2 ^ 32 := by omega
    have e5 : p / 2 ^ 32 * 2 ^ 32 % 2 ^ 64 = 2 ^ 32 * (p / 2 ^ 32) := by omega
    rw [e3, e4, e5, Nat.or_comm, ← Nat.mul_add_lt_is_or h1]
    omega

/-- C10: in the FBSEPCMP build, for every 64-bit handle value `p`, the two words
`fiber_create` passes to `makecontext` are 32-bit words that `fiber_proc_impl` puts together
again into exactly `p`; so when `fiber_create` returns the minor fiber `p`, the context it
built enters the trampoline with those two words, and the trampoline calls the entry callback
`run` given at creation with the very fiber `p`, whose `userdata` is the pointer given at
creation; and the trampoline called with a null handle returns without calling anything. -/
theorem C10_split_handle_roundtrip (p : Nat) (hp : p < 2 ^ 64) :
    (∃ fst scd, split_handle p = [fst, scd] ∧ fst < 2 ^ 32 ∧ scd < 2 ^ 32 ∧
      join_handle fst scd = p) ∧
    (∀ (A : Allocator) (primary : Ptr) (stack : Nat) (run userdata : Ptr) (h : Heap)
        (pf : fiber_t),
      primary ≠ 0 → run ≠ 0 → h.mem.get primary = some (Block.fiber pf) →
      A.pick h.mem.keys = p →
      ∃ h2 f c fst scd h3,
        fiber_create true A primary stack run userdata h = some (p, h2) ∧
        h2.mem.get p = some (Block.fiber f) ∧ f.userdata = userdata ∧ f.proc = run ∧
        h2.mem.get f.context = some (Block.ucontext c) ∧
        c.regs = Regs.entry [fst, scd] ∧
        fiber_proc_impl_sep fst scd h2 = some (some (run, p), h3) ∧
        h3.mem = h2.mem ∧
        restore true c.regs h2 =
          some ([Frame.user run 0 p 0, Frame.fiber_proc_impl_ret], h3)) ∧
    (∀ h : Heap, fiber_proc_impl_sep 0 0 h = some (none, h) ∧
      restore true (Regs.entry [0, 0]) h = some ([], h)) := by
  obtain ⟨hsplit, hjoin⟩ := join_split_handle p hp
  have h1 : p % 2 ^ 32 < 2 ^ 32 := Nat.mod_lt _ (by norm_num)
  have h2 : p / 2 ^ 32 < 2 ^ 32 := by omega
  refine ⟨⟨_, _, hsplit, h1, h2, hjoin⟩, ?_, ?_⟩
  · intro A primary stack run userdata h pf hprimary hrun hpf hpick
    obtain ⟨n1, n2, n3, d1, d2, d3, f1, f2, f3⟩ := A.three h.mem.keys
    have hc := fiber_create_minor_eq true A primary stack run userdata h pf hprimary hrun hpf
    simp only at hc
    rw [hpick] at hc n1 d1 d2 f1
    rw [hpick] at d3 n2 n3
    generalize A.pick (p :: h.mem.keys) = ctx at hc n2 d1 d2 d3 n3
    generalize A.pick (ctx :: p :: h.mem.keys) = sp at hc n3 d2 d3
    generalize (if stack = 0 then FIBER_STACK_SIZE else stack) = size at hc
    simp only [if_true] at hc
    obtain ⟨h2, hh2⟩ : ∃ h2 : Heap, h2 = Heap.mk ((sp, Block.raw size) ::
        (ctx, Block.ucontext ⟨sp, size, 0, Regs.entry (split_handle p)⟩) ::
        (p, Block.fiber ⟨pf.current, size, ctx, run, userdata⟩) :: h.mem)
      (h.log ++ [Event.alloc p, Event.write p, Event.write p,
        Event.alloc ctx, Event.write ctx, Event.write ctx, Event.alloc sp,
        Event.write ctx, Event.write ctx, Event.write ctx,
        Event.makecontext ctx (split_handle p), Event.read primary,
        Event.write p, Event.write p, Event.write p]) := ⟨_, rfl⟩
    rw [← hh2] at hc
    have hget : h2.mem.get p = some (Block.fiber ⟨pf.current, size, ctx, run, userdata⟩) := by
      rw [hh2]
      simp [Mem.get, Ne.symm d1, Ne.symm d2]
    have hctx : h2.mem.get ctx =
        some (Block.ucontext ⟨sp, size, 0, Regs.entry (split_handle p)⟩) := by
      rw [hh2]
      simp [Mem.get, Ne.symm d3]
    have himpl : fiber_proc_impl_sep (p % 2 ^ 32) (p / 2 ^ 32) h2 =
          some (some (run, p), Heap.mk h2.mem (h2.log ++ [Event.read p])) := by
      simp only [fiber_proc_impl_sep, hjoin]
      simp [n1, loadFiber, hget]
    refine ⟨h2, ⟨pf.current, size, ctx, run, userdata⟩,
      ⟨sp, size, 0, Regs.entry (split_handle p)⟩, p % 2 ^ 32, p / 2 ^ 32,
      Heap.mk h2.mem (h2.log ++ [Event.read p]), hc, hget, rfl, rfl, hctx, ?_, himpl, rfl, ?_⟩
    · simp only [hsplit]
    · simp only [restore, hsplit, if_true]
      rw [himpl]
      rfl
  · intro h
    constructor
    · simp [fiber_proc_impl_sep, join_handle]
    · simp [restore, fiber_proc_impl_sep, join_handle]

/-- Witness of C10: the handle `2 ^ 33 + 5`, whose words are `5` and `2`, returned by
`fiber_create(fb0, 0, fiber1, &test)`. -/
theorem C10_split_handle_roundtrip_witness :
    (∃ fst scd, split_handle 8589934597 = [fst, scd] ∧ fst < 2 ^ 32 ∧ scd < 2 ^ 32 ∧
      join_handle fst scd = 8589934597) ∧
    (∃ h2 f c fst scd h3,
        fiber_create true bump 1 0 FIBER1 1000 familyHigh = some (8589934597, h2) ∧
        h2.mem.get 8589934597 = some (Block.fiber f) ∧ f.userdata = 1000 ∧ f.proc = FIBER1 ∧
        h2.mem.get f.context = some (Block.ucontext c) ∧
        c.regs = Regs.entry [fst, scd] ∧
        fiber_proc_impl_sep fst scd h2 = some (some (FIBER1, 8589934597), h3) ∧
        h3.mem = h2.mem ∧
        restore true c.regs h2 =
          some ([Frame.user FIBER1 0 8589934597 0, Frame.fiber_proc_impl_ret], h3)) :=
  ⟨(C10_split_handle_roundtrip 8589934597 (by norm_num)).1,
    (C10_split_handle_roundtrip 8589934597 (by norm_num)).2.1 bump 1 0 FIBER1 1000 familyHigh
      ⟨2, 0, 3, 0, 1000⟩ (by decide) (by decide) (by decide) (by decide)⟩

/-- C8: for any number of minor fibers, creating a primary fiber and the minors from it and
then deleting the minors last-created first and finally the primary makes every
`fiber_delete` return true and leaves the memory as it was before: the addresses released
are the addresses `fiber_create` allocated (three per fiber), each of them once, so no
allocation is outstanding.  Deleting a minor fiber releases its stack, its context record
and its handle, and leaves the shared cell live; deleting a primary fiber releases the
cell, its context record and its handle, and leaves every stack block live. -/
theorem C8_reverse_teardown_releases_all (sep : Bool) (A : Allocator) (stack : Nat)
    (userdata : Ptr) (minors : List (Nat × Ptr × Ptr)) (h : Heap)
    (hruns : ∀ a ∈ minors, a.2.1 ≠ 0) :
    (∃ h4 evs,
      family_life sep A stack userdata minors h =
        some (List.replicate minors.length true, true, h4) ∧
      h4.mem = h.mem ∧ h4.log = h.log ++ evs ∧
      (allocated evs).Nodup ∧ (released evs).Perm (allocated evs) ∧
      (allocated evs).length = 3 * (minors.length + 1) ∧
      (∀ x ∈ allocated evs, x ∉ h.mem.keys)) ∧
    (∀ (g : Heap) (fb : Ptr) (f : fiber_t) (c : ucontext_t) (n : Nat) (v : Ptr),
      g.mem.get 0 = none → g.mem.get fb = some (Block.fiber f) → f.proc ≠ 0 →
      g.mem.get f.context = some (Block.ucontext c) →
      g.mem.get c.ss_sp = some (Block.raw n) →
      g.mem.get f.current = some (Block.cell v) →
      ∃ g2 evs, fiber_delete fb g = some (true, g2) ∧ g2.log = g.log ++ evs ∧
        released evs = [c.ss_sp, f.context, fb] ∧ g2.mem.get c.ss_sp = none ∧
        g2.mem.get f.current = some (Block.cell v)) ∧
    (∀ (g : Heap) (fb : Ptr) (f : fiber_t) (c : ucontext_t) (v : Ptr),
      g.mem.get 0 = none → g.mem.get fb = some (Block.fiber f) → f.proc = 0 →
      g.mem.get f.context = some (Block.ucontext c) →
      g.mem.get f.current = some (Block.cell v) →
      ∃ g2 evs, fiber_delete fb g = some (true, g2) ∧ g2.log = g.log ++ evs ∧
        released evs = [f.current, f.context, fb] ∧ g2.mem.get f.current = none ∧
        (∀ q n, g.mem.get q = some (Block.raw n) → g2.mem.get q = some (Block.raw n))) := by
  refine ⟨family_life_balanced sep A stack userdata minors hruns h, ?_, ?_⟩
  · intro g fb f c n v hnull hfb hproc hctx hsp hcell
    have hd := fiber_delete_minor_eq g fb f c n hnull hfb hproc hctx hsp
    have d1 : f.current ≠ c.ss_sp := fun e => by rw [e, hsp] at hcell; cases hcell
    have d2 : f.current ≠ f.context := fun e => by rw [e, hctx] at hcell; cases hcell
    have d3 : f.current ≠ fb := fun e => by rw [e, hfb] at hcell; cases hcell
    have d4 : c.ss_sp ≠ f.context := fun e => by rw [e, hctx] at hsp; cases hsp
    have d5 : c.ss_sp ≠ fb := fun e => by rw [e, hfb] at hsp; cases hsp
    refine ⟨_, _, hd, rfl, ?_, ?_, ?_⟩
    · simp [released]
    · simp only
      rw [Mem.get_erase_ne _ d5, Mem.get_erase_ne _ d4]
      exact Mem.get_erase_same _ _
    · simp only
      rw [Mem.get_erase_ne _ d3, Mem.get_erase_ne _ d2, Mem.get_erase_ne _ d1]
      exact hcell
  · intro g fb f c v hnull hfb hproc hctx hcell
    have hd := fiber_delete_primary_eq g fb f c v hnull hfb hproc hctx hcell
    have d2 : f.current ≠ f.context := fun e => by rw [e, hctx] at hcell; cases hcell
    have d3 : f.current ≠ fb := fun e => by rw [e, hfb] at hcell; cases hcell
    refine ⟨_, _, hd, rfl, ?_, ?_, ?_⟩
    · simp [released]
    · simp only
      rw [Mem.get_erase_ne _ d3, Mem.get_erase_ne _ d2]
      exact Mem.get_erase_same _ _
    · intro q n hq
      have e1 : q ≠ f.current := fun e => by rw [e, hcell] at hq; cases hq
      have e2 : q ≠ f.context := fun e => by rw [e, hctx] at hq; cases hq
      have e3 : q ≠ fb := fun e => by rw [e, hfb] at hq; cases hq
      simp only
      rw [Mem.get_erase_ne _ e3, Mem.get_erase_ne _ e2, Mem.get_erase_ne _ e1]
      exact hq

/-- Witness of C8: the family of test.c (lines 71-73 and 84-86), from the empty heap; the
deletion of the minor fiber `7` of test.c (line 84); and a deletion of the primary fiber
`1`. -/
theorem C8_reverse_teardown_releases_all_witness :
    (∃ h4 evs,
      family_life false bump 0 1000 [(0, FIBER1, 1000), (0, FIBER2, 1000)] emptyHeap =
        some (List.replicate 2 true, true, h4) ∧
      h4.mem = emptyHeap.mem ∧ h4.log = emptyHeap.log ++ evs ∧
      (allocated evs).Nodup ∧ (released evs).Perm (allocated evs) ∧
      (allocated evs).length = 3 * (2 + 1) ∧
      (∀ x ∈ allocated evs, x ∉ emptyHeap.mem.keys)) ∧
    (∃ g2 evs, fiber_delete 7 family3 = some (true, g2) ∧ g2.log = family3.log ++ evs ∧
        released evs = [9, 8, 7] ∧ g2.mem.get 9 = none ∧
        g2.mem.get 2 = some (Block.cell 1)) ∧
    (∃ g2 evs, fiber_delete 1 family3 = some (true, g2) ∧ g2.log = family3.log ++ evs ∧
        released evs = [2, 3, 1] ∧ g2.mem.get 2 = none ∧
        (∀ q n, family3.mem.get q = some (Block.raw n) →
          g2.mem.get q = some (Block.raw n))) :=
  ⟨(C8_reverse_teardown_releases_all false bump 0 1000 [(0, FIBER1, 1000), (0, FIBER2, 1000)]
      emptyHeap (by decide)).1,
    (C8_reverse_teardown_releases_all false bump 0 1000 [] emptyHeap (by decide)).2.1
      family3 7 ⟨2, 1048576, 8, 3, 1000⟩ ⟨9, 1048576, 0, Regs.entry [7]⟩ 1048576 1
      (by decide) (by decide) (by decide) (by decide) (by decide) (by decide),
    (C8_reverse_teardown_releases_all false bump 0 1000 [] emptyHeap (by decide)).2.2
      family3 1 ⟨2, 0, 3, 0, 1000⟩ ⟨0, 0, 0, Regs.zeroed⟩ 1
      (by decide) (by decide) (by decide) (by decide) (by decide)⟩

/-- C2: the scenario of test.c, run from the opening of `main` with the allocator `bump`
and `&test = 1000`, in both builds.  After 36 steps control is back in `main` (the primary
fiber) just after its third `fiber_switch` (line 81): the nine assertions evaluated so far,
all there are, were true, the lines printed are `fiber1: 1`, `fiber2: 2`, `fiber1: 3`,
`fiber2: 4`, `fiber1: 5`, `fiber2: 6`, and the counter is 6.  After 5 more steps `main` has
returned: nothing more was printed, the counter is still 6, and no block is live. -/
theorem C2_three_fiber_scenario :
    (∀ sep : Bool,
      (run sep bump 36 (start 1000)).map
          (fun m => (m.status, m.stack, m.out, m.asserts, m.test.sum)) =
        some (Status.running, [Frame.user MAIN 9 0 1000],
          [(Label.fiber1, (1 : Int)), (Label.fiber2, 2), (Label.fiber1, 3), (Label.fiber2, 4),
            (Label.fiber1, 5), (Label.fiber2, 6)],
          [true, true, true, true, true, true, true, true, true], (6 : Int))) ∧
    (∀ sep : Bool,
      (run sep bump 41 (start 1000)).map
          (fun m => (m.status, m.stack, m.out, m.asserts, m.test.sum, m.heap.mem)) =
        some (Status.exited, [],
          [(Label.fiber1, (1 : Int)), (Label.fiber2, 2), (Label.fiber1, 3), (Label.fiber2, 4),
            (Label.fiber1, 5), (Label.fiber2, 6)],
          [true, true, true, true, true, true, true, true, true], (6 : Int), [])) := by
  constructor
  · intro sep
    cases sep <;> rfl
  · intro sep
    cases sep <;> rfl

end Fiber

